import Mathlib

/-!
Verification development for the `applyTemplate.py` synchronization engine
of mrWheel/templateRepo.

The Python source is shallowly embedded: text is `List Char`, the
filesystem is an association list from paths to file data, and the
interactive prompt consumes an explicit list of input lines.  External
library primitives are modelled by their documented contracts:

* `str.splitlines(keepends=True)` is implemented in full (all CPython
  line-boundary characters, CRLF treated as a single boundary);
* the regular expressions of `_normalize_for_compare`
  (`re.match` of caret, captured whitespace-key-colon-whitespace group,
  dot-star, dollar) are implemented as a deterministic greedy parse,
  which coincides with the backtracking semantics on these patterns
  because the character classes at each boundary are disjoint;
* `hashlib.sha256` is modelled as an injective digest, i.e. digest
  comparison is comparison of the hashed byte strings (normalized text);
* `difflib.unified_diff` is modelled by its contract: it yields no lines
  when the two line sequences are equal, and otherwise yields the two
  file headers, a hunk header and the changed lines.  Only emptiness and
  the presence of non-whitespace output are relied upon.
* `st_size` of a text file is the UTF-8 byte length of its decoded text.
-/

set_option autoImplicit false

namespace ApplyTemplate

/-- Python strings are modelled as lists of characters. -/
abbrev PyStr := List Char

/-- Line-boundary characters of CPython `str.splitlines`
(LF, CR, VT, FF, FS, GS, RS, NEL, LINE SEPARATOR, PARAGRAPH SEPARATOR). -/
def isBreakChar (c : Char) : Bool :=
  c = '\n' || c = '\r' || c = '\x0b' || c = '\x0c' ||
  c = '\x1c' || c = '\x1d' || c = '\x1e' || c = '\x85' ||
  c.toNat = 0x2028 || c.toNat = 0x2029

/-- Whitespace characters of CPython `str.isspace` / regex `\s`
(the set used by `str.strip` and by the `\s` class of `re`). -/
def isPySpace (c : Char) : Bool :=
  c = ' ' || c = '\t' || c = '\n' || c = '\r' || c = '\x0b' || c = '\x0c' ||
  c = '\x1c' || c = '\x1d' || c = '\x1e' || c = '\x1f' ||
  c = '\x85' || c = '\xa0' || c.toNat = 0x1680 ||
  (0x2000 ≤ c.toNat && c.toNat ≤ 0x200a) ||
  c.toNat = 0x2028 || c.toNat = 0x2029 || c.toNat = 0x202f ||
  c.toNat = 0x205f || c.toNat = 0x3000

/-- Text containing no line-boundary character. -/
def noBrk (l : PyStr) : Bool := l.all (fun c => !isBreakChar c)

/-- Text consisting only of Python whitespace. -/
def allSpace (l : PyStr) : Bool := l.all isPySpace

/-- Boolean prefix test on character lists. -/
def isPre : PyStr → PyStr → Bool
  | [], _ => true
  | _ :: _, [] => false
  | a :: as, b :: bs => a == b && isPre as bs

/-- Boolean suffix test on character lists. -/
def isSuf (s l : PyStr) : Bool := isPre s.reverse l.reverse

/-- Boolean substring test on character lists (models Python `in`). -/
def containsSub (pat : PyStr) : PyStr → Bool
  | [] => pat.isEmpty
  | c :: rest => isPre pat (c :: rest) || containsSub pat rest

/-- Python `str.lower` (ASCII case folding, which covers every input the
prompt ever compares against). -/
def pyLower (l : PyStr) : PyStr := l.map Char.toLower

/-- Python `str.strip()`: remove leading and trailing whitespace. -/
def pyStrip (l : PyStr) : PyStr :=
  ((l.dropWhile isPySpace).reverse.dropWhile isPySpace).reverse

/-- Model of CPython `str.splitlines(keepends=True)`: `acc` holds the
characters of the current (unfinished) line in reverse order. -/
def splitlinesAux : List Char → List Char → List PyStr
  | [], acc => if acc.isEmpty then [] else [acc.reverse]
  | [c], acc =>
    if isBreakChar c then [acc.reverse ++ [c]] else [(c :: acc).reverse]
  | c :: c2 :: rest, acc =>
    if isBreakChar c then
      if c = '\r' ∧ c2 = '\n' then
        (acc.reverse ++ ['\r', '\n']) :: splitlinesAux rest []
      else
        (acc.reverse ++ [c]) :: splitlinesAux (c2 :: rest) []
    else
      splitlinesAux (c2 :: rest) (c :: acc)

/-- Python `text.splitlines(keepends=True)`. -/
def splitlinesK (t : PyStr) : List PyStr := splitlinesAux t []

/-- Python `"".join(lines)`. -/
def pyJoin (ps : List PyStr) : PyStr := ps.flatten

/-! ## Normalizer (`_is_tag_release_yml`, `_normalize_for_compare`) -/

/-- Literal `PROGRAM_NAME` of the first rewrite pattern. -/
def keyNAME : PyStr := ['P', 'R', 'O', 'G', 'R', 'A', 'M', '_', 'N', 'A', 'M', 'E']

/-- Literal `PROGRAM_SRC` of the second rewrite pattern. -/
def keySRC : PyStr := ['P', 'R', 'O', 'G', 'R', 'A', 'M', '_', 'S', 'R', 'C']

/-- Literal `PROGRAM_DIR` of the third rewrite pattern. -/
def keyDIR : PyStr := ['P', 'R', 'O', 'G', 'R', 'A', 'M', '_', 'D', 'I', 'R']

/-- The pattern keys, in the order the source tries them. -/
def patternKeys : List PyStr := [keyNAME, keySRC, keyDIR]

/-- Replacement text appended after the captured group:
the quoted placeholder plus a bare LF. -/
def ignoredTail : PyStr :=
  ['"', '<', 'i', 'g', 'n', 'o', 'r', 'e', 'd', '>', '"', '\n']

/-- Remainder admissible for `.*` followed by the dollar anchor under
`re.match`: every LF must be the final character (`.` does not cross LF,
and the dollar anchor matches only at the end or before a final LF). -/
def dotStarOk (l : PyStr) : Bool := l.dropLast.all (fun c => !(c = '\n'))

/-- Model of `re.match` for the source pattern: caret, captured group of
optional whitespace, `key`, optional whitespace, colon, optional
whitespace, then dot-star and the dollar anchor.  Returns the captured
group on success.  The greedy left-to-right parse is exact here: at each
boundary the following literal is not a whitespace character, so regex
backtracking can never produce a match the greedy parse misses. -/
def matchKey (key l : PyStr) : Option PyStr :=
  let w1 := l.takeWhile isPySpace
  let r1 := l.dropWhile isPySpace
  if isPre key r1 then
    let r2 := r1.drop key.length
    let w2 := r2.takeWhile isPySpace
    let r3 := r2.dropWhile isPySpace
    match r3 with
    | ':' :: r4 =>
      let w3 := r4.takeWhile isPySpace
      let r5 := r4.dropWhile isPySpace
      if dotStarOk r5 then some (w1 ++ key ++ w2 ++ ':' :: w3) else none
    | _ => none
  else none

/-- First matching pattern wins (the source breaks out of the pattern
loop after a match). -/
def matchFirst : List PyStr → PyStr → Option PyStr
  | [], _ => none
  | k :: ks, l =>
    match matchKey k l with
    | some g => some g
    | none => matchFirst ks l

/-- Per-line body of `_normalize_for_compare`: a matched line is replaced
by its captured group followed by the quoted placeholder and LF; other
lines pass through. -/
def normalizeLine (l : PyStr) : PyStr :=
  match matchFirst patternKeys l with
  | some g => g ++ ignoredTail
  | none => l

/-- Path suffix recognized by `_is_tag_release_yml` (first disjunct). -/
def tagSuffixFull : PyStr := (".github/workflows/tag-release.yml").toList

/-- Path fragment tested with `in` by `_is_tag_release_yml`. -/
def strWorkflows : PyStr := ("workflows").toList

/-- Path suffix recognized by `_is_tag_release_yml` (second disjunct). -/
def tagSuffixShort : PyStr := ("tag-release.yml").toList

/-- Model of `_is_tag_release_yml`. -/
def is_tag_release_yml (p : PyStr) : Bool :=
  isSuf tagSuffixFull p || (containsSub strWorkflows p && isSuf tagSuffixShort p)

/-- Model of `_normalize_for_compare`: identity on unrecognized paths;
otherwise the line-by-line rewrite over `splitlines(keepends=True)`,
re-joined. -/
def normalize_for_compare (path text : PyStr) : PyStr :=
  if is_tag_release_yml path then pyJoin ((splitlinesK text).map normalizeLine)
  else text

/-! ## Fingerprints and the comparator (`_count_lines`,
`_calc_sha256_for_compare`, `make_unified_diff`, `files_differ`) -/

/-- Per-file data: decoded text and modification time.  The model covers
text files (every file the claims are about); `st_size` is therefore the
UTF-8 byte length of the text. -/
structure FData where
  text : PyStr
  mtime : Int
deriving DecidableEq

instance : Inhabited FData := ⟨⟨[], 0⟩⟩

/-- Model of `_count_lines`. -/
def count_lines (t : PyStr) : Nat :=
  t.count '\n' + (if t.getLast? = some '\n' ∨ t = [] then 0 else 1)

/-- Byte size of a text file (UTF-8 length of its decoded text). -/
def sizeBytes (t : PyStr) : Nat := (t.map Char.utf8Size).sum

/-- Model of `_calc_sha256_for_compare`: SHA-256 is modelled as an
injective digest, so the digest is represented by the normalized text
itself; digest equality is equality of normalized contents. -/
def calc_sha256_for_compare (path text : PyStr) : PyStr :=
  normalize_for_compare path text

/-- Contract model of `difflib.unified_diff` with `lineterm=""`:
no output when the sequences are equal; otherwise the two file headers,
a hunk header, and the removed/added lines.  (The real hunk computation
groups context lines; the claims rely only on emptiness and on the
output containing non-whitespace characters, which the headers always
provide.) -/
def unified_diff (a b : List PyStr) (fromfile tofile : PyStr) : List PyStr :=
  if a = b then []
  else (['-', '-', '-', ' '] ++ fromfile) :: (['+', '+', '+', ' '] ++ tofile) ::
    ['@', '@', ' ', '@', '@'] ::
    (a.map (fun l => '-' :: l) ++ b.map (fun l => '+' :: l))

/-- Python `"\\n".join(lines)`. -/
def joinNL : List PyStr → PyStr
  | [] => []
  | [x] => x
  | x :: y :: rest => x ++ '\n' :: joinNL (y :: rest)

/-- Model of `make_unified_diff`: normalized texts of both files are
split into lines and diffed, target as from-file, source as to-file, and
the lines are joined with LF. -/
def make_unified_diff (srcPath srcText dstPath dstText : PyStr) : PyStr :=
  joinNL
    (unified_diff (splitlinesK (normalize_for_compare dstPath dstText))
      (splitlinesK (normalize_for_compare srcPath srcText)) dstPath srcPath)

/-- Comparison strategies accepted by the command line
(`hash` is the default / fall-through branch of `files_differ`). -/
inductive CompareMode where
  | size
  | mtime
  | lines
  | diff
  | hash
deriving DecidableEq

/-- Model of `files_differ` (target assumed to exist). -/
def files_differ (srcPath : PyStr) (src : FData) (dstPath : PyStr) (dst : FData)
    (compare : CompareMode) : Bool :=
  match compare with
  | .size => if sizeBytes src.text = sizeBytes dst.text then false else true
  | .mtime => if src.mtime = dst.mtime then false else true
  | .lines => if count_lines src.text = count_lines dst.text then false else true
  | .diff =>
    if pyStrip (make_unified_diff srcPath src.text dstPath dst.text) = [] then false
    else true
  | .hash =>
    if calc_sha256_for_compare srcPath src.text = calc_sha256_for_compare dstPath dst.text
    then false else true

/-! ## Backup path allocator (`_next_backup_path`) -/

/-- Candidate sequence probed by `_next_backup_path`: candidate `0` is
the target path with the suffix appended, candidate `i` for positive `i`
appends a dot and the decimal numeral `i` to that base. -/
def backupCandidate (dst backup_suffix : PyStr) : Nat → PyStr
  | 0 => dst ++ backup_suffix
  | Nat.succ i => dst ++ backup_suffix ++ '.' :: (Nat.repr (i + 1)).data

/-- Numeric probing loop of `_next_backup_path`.  The source loop is
`while True` with no bound; `fuel` bounds the number of probes the model
may make, so a `none` result means the source loop has not returned
within that many probes. -/
def nbpLoop (ex : PyStr → Bool) (base : PyStr) : Nat → Nat → Option PyStr
  | _, 0 => none
  | i, Nat.succ fuel =>
    let candidate := base ++ '.' :: (Nat.repr i).data
    if ex candidate then nbpLoop ex base (i + 1) fuel else some candidate

/-- Model of `_next_backup_path`: `ex` is the `Path.exists` probe of the
filesystem at call time. -/
def next_backup_path (ex : PyStr → Bool) (dst backup_suffix : PyStr) (fuel : Nat) :
    Option PyStr :=
  let base := dst ++ backup_suffix
  if ex base = false then some base
  else nbpLoop ex base 1 fuel

/-! ## Conflict resolver and tree synchronizer
(`prompt_existing_file_action`, `copy_tree_with_policy`,
`apply_self_update_from_template`) -/

/-- Decisions returned by `prompt_existing_file_action`. -/
inductive PAction where
  | skip
  | overwrite
  | backup_overwrite
deriving DecidableEq

/-- The `--on-existing` policy (argparse restricts the choices). -/
inductive OnExisting where
  | skip
  | ask
  | overwrite
deriving DecidableEq

/-- Interactive choice loop of `prompt_existing_file_action`: one queued
input line is consumed per iteration; a `d` answer (show diff) and an
unrecognized answer both re-enter the loop; `none` models `input()`
raising at end of input. -/
def promptLoop : List PyStr → Option (PAction × List PyStr)
  | [] => none
  | choice :: rest =>
    let c := pyLower (pyStrip choice)
    if c = ("s").toList ∨ c = ("skip").toList ∨ c = [] then some (.skip, rest)
    else if c = ("o").toList ∨ c = ("overwrite").toList then some (.overwrite, rest)
    else if c = ("b").toList ∨ c = ("backup").toList then some (.backup_overwrite, rest)
    else promptLoop rest

/-- Model of `prompt_existing_file_action`: when stdin is not an
interactive TTY the decision is forced to `skip` and no input is read;
otherwise the choice loop runs.  The display-only work (stats, diff
printing, and the backup-path preview printed on a `b` answer) does not
change any state and is not modelled. -/
def prompt_existing_file_action (isatty : Bool) (inputs : List PyStr) :
    Option (PAction × List PyStr) :=
  if isatty = false then some (.skip, inputs) else promptLoop inputs

/-- The filesystem: an association list from paths to file data
(first binding wins). -/
abbrev FS := List (PyStr × FData)

/-- Lookup of a path. -/
def fsFind : FS → PyStr → Option FData
  | [], _ => none
  | e :: rest, p => if e.1 = p then some e.2 else fsFind rest p

/-- Model of `Path.exists`. -/
def fsExists (fs : FS) (p : PyStr) : Bool := (fsFind fs p).isSome

/-- Content of a path (default contents when absent; the embedded code
only reads paths it knows exist). -/
def fsGetD (fs : FS) (p : PyStr) : FData := (fsFind fs p).getD default

/-- Create or replace a file. -/
def fsSet (fs : FS) (p : PyStr) (d : FData) : FS := (p, d) :: fs

/-- Model of `shutil.copy2` (content and modification time travel
together in `FData`). -/
def fsCopy2 (fs : FS) (src dst : PyStr) : FS := fsSet fs dst (fsGetD fs src)

/-- Running totals of `copy_tree_with_policy`. -/
structure SyncTotals where
  copied : Nat
  skipped : Nat
  overwritten : Nat
deriving DecidableEq

/-- Configuration surface of one run (command-line arguments plus the
TTY state of stdin; `bfuel` is the probe bound of the backup allocator
model). -/
structure Ctx where
  on_existing : OnExisting
  compare : CompareMode
  show_diff : Bool
  backup_suffix : PyStr
  isatty : Bool
  bfuel : Nat

/-- Observable events of one run, in program order. -/
inductive Ev where
  | copyEv (src dst : PyStr)
  | compareEv (src dst : PyStr)
  | promptEv (dst : PyStr)
deriving DecidableEq

/-- Mutable state threaded through a run: the filesystem, the pending
stdin lines, and the counters. -/
structure St where
  fs : FS
  inputs : List PyStr
  totals : SyncTotals

/-- The `files_differ` call exactly as `handle_file` makes it. -/
def conflict_differ (ctx : Ctx) (srcP dstP : PyStr) (fs : FS) : Bool :=
  files_differ srcP (fsGetD fs srcP) dstP (fsGetD fs dstP) ctx.compare

/-- Model of the nested `handle_file` of `copy_tree_with_policy`.
Returns the updated state and this file's events in program order;
`none` models the unbounded backup probe loop not returning, or
`input()` raising at end of input. -/
def handle_file (ctx : Ctx) (srcP dstP : PyStr) (st : St) : Option (St × List Ev) :=
  if fsExists st.fs dstP = false then
    some ({ st with fs := fsCopy2 st.fs srcP dstP,
                    totals := { st.totals with copied := st.totals.copied + 1 } },
      [.copyEv srcP dstP])
  else
    match ctx.on_existing with
    | .skip =>
      some ({ st with totals := { st.totals with skipped := st.totals.skipped + 1 } }, [])
    | .overwrite =>
      some ({ st with fs := fsCopy2 st.fs srcP dstP,
                      totals := { st.totals with overwritten := st.totals.overwritten + 1 } },
        [.copyEv srcP dstP])
    | .ask =>
      if conflict_differ ctx srcP dstP st.fs = false then
        some ({ st with totals := { st.totals with skipped := st.totals.skipped + 1 } },
          [.compareEv srcP dstP])
      else
        match prompt_existing_file_action ctx.isatty st.inputs with
        | none => none
        | some (action, rest) =>
          match action with
          | .skip =>
            some ({ st with inputs := rest,
                            totals := { st.totals with skipped := st.totals.skipped + 1 } },
              [.compareEv srcP dstP, .promptEv dstP])
          | .backup_overwrite =>
            match next_backup_path (fsExists st.fs) dstP ctx.backup_suffix ctx.bfuel with
            | none => none
            | some bp =>
              some ({ st with
                        fs := fsCopy2 (fsCopy2 st.fs dstP bp) srcP dstP,
                        inputs := rest,
                        totals := { st.totals with
                                      overwritten := st.totals.overwritten + 1 } },
                [.compareEv srcP dstP, .promptEv dstP, .copyEv dstP bp, .copyEv srcP dstP])
          | .overwrite =>
            some ({ st with fs := fsCopy2 st.fs srcP dstP, inputs := rest,
                            totals := { st.totals with
                                          overwritten := st.totals.overwritten + 1 } },
              [.compareEv srcP dstP, .promptEv dstP, .copyEv srcP dstP])

/-- Path concatenation `root / rel`. -/
def pathJoin (root rel : PyStr) : PyStr := root ++ '/' :: rel

/-- Model of `copy_tree_with_policy`.  `walk` is the output of
`src.rglob` in discovery order: relative paths flagged as directories or
regular files (a single-file source is the one-element walk).  Directory
entries only create directories and touch no file state. -/
def copy_tree_with_policy (ctx : Ctx) (srcRoot dstRoot : PyStr)
    (walk : List (PyStr × Bool)) (st : St) : Option St :=
  match walk with
  | [] => some st
  | (rel, isDir) :: rest =>
    if isDir then copy_tree_with_policy ctx srcRoot dstRoot rest st
    else
      match handle_file ctx (pathJoin srcRoot rel) (pathJoin dstRoot rel) st with
      | none => none
      | some (st2, _) => copy_tree_with_policy ctx srcRoot dstRoot rest st2

/-- Model of `apply_self_update_from_template`.  The three paths
`src_self` (template's `applyTemplate.py`), `dst_self` (the repo copy)
and `tmp_self` (the deferred-update temporary) are passed in directly in
place of the source's path arithmetic.  Returns the state, the events in
program order, and the function's boolean result. -/
def apply_self_update_from_template (ctx : Ctx) (src_self dst_self tmp_self : PyStr)
    (st : St) : Option (St × List Ev × Bool) :=
  if fsExists st.fs src_self = false then some (st, [], false)
  else
    let fs1 := fsCopy2 st.fs src_self tmp_self
    let st1 := { st with fs := fs1 }
    let evs1 : List Ev := [.copyEv src_self tmp_self]
    if fsExists fs1 dst_self = true then
      match ctx.on_existing with
      | .skip => some (st1, evs1, false)
      | .ask =>
        if conflict_differ ctx tmp_self dst_self fs1 = true then
          match prompt_existing_file_action ctx.isatty st1.inputs with
          | none => none
          | some (action, rest) =>
            let st2 := { st1 with inputs := rest }
            let evs2 := evs1 ++ [.compareEv tmp_self dst_self, .promptEv dst_self]
            match action with
            | .skip => some (st2, evs2, false)
            | .backup_overwrite =>
              match next_backup_path (fsExists st2.fs) dst_self ctx.backup_suffix
                  ctx.bfuel with
              | none => none
              | some bp =>
                some ({ st2 with fs := fsCopy2 (fsCopy2 st2.fs dst_self bp) tmp_self dst_self },
                  evs2 ++ [.copyEv dst_self bp, .copyEv tmp_self dst_self], true)
            | .overwrite =>
              some ({ st2 with fs := fsCopy2 st2.fs tmp_self dst_self },
                evs2 ++ [.copyEv tmp_self dst_self], true)
        else
          some (st1, evs1 ++ [.compareEv tmp_self dst_self], false)
      | .overwrite =>
        some ({ st1 with fs := fsCopy2 fs1 tmp_self dst_self },
          evs1 ++ [.copyEv tmp_self dst_self], true)
    else
      some ({ st1 with fs := fsCopy2 fs1 tmp_self dst_self },
        evs1 ++ [.copyEv tmp_self dst_self], true)

/-! ## Basic lemmas about the character-list helpers -/

theorem noBrk_append (a b : PyStr) : noBrk (a ++ b) = (noBrk a && noBrk b) := by
  simp [noBrk, List.all_append]

theorem noBrk_reverse (a : PyStr) : noBrk a.reverse = noBrk a := by
  simp [noBrk, List.all_reverse]

theorem noBrk_cons (c : Char) (a : PyStr) :
    noBrk (c :: a) = (!isBreakChar c && noBrk a) := by
  simp [noBrk]

theorem isPre_append_self (k r : PyStr) : isPre k (k ++ r) = true := by
  induction k with
  | nil => rfl
  | cons c k ih => simp [isPre, ih]

theorem isPre_eq_take (a b : PyStr) (h : isPre a b = true) : b = a ++ b.drop a.length := by
  induction a generalizing b with
  | nil => simp
  | cons c a ih =>
    cases b with
    | nil => simp [isPre] at h
    | cons d b =>
      simp only [isPre, Bool.and_eq_true, beq_iff_eq] at h
      simpa [h.1] using ih b h.2

theorem takeWhile_space_append (w : PyStr) (x : Char) (r : PyStr)
    (hw : allSpace w = true) (hx : isPySpace x = false) :
    (w ++ x :: r).takeWhile isPySpace = w := by
  induction w with
  | nil => simp [List.takeWhile, hx]
  | cons c w ih =>
    simp only [allSpace, List.all_cons, Bool.and_eq_true] at hw
    simp [List.takeWhile, hw.1, ih hw.2]

theorem dropWhile_space_append (w : PyStr) (x : Char) (r : PyStr)
    (hw : allSpace w = true) (hx : isPySpace x = false) :
    (w ++ x :: r).dropWhile isPySpace = x :: r := by
  induction w with
  | nil => simp [List.dropWhile, hx]
  | cons c w ih =>
    simp only [allSpace, List.all_cons, Bool.and_eq_true] at hw
    simp [List.dropWhile, hw.1, ih hw.2]

/-! ## Structure of `splitlinesK` output and the join/resplit theorems -/

theorem sl_nil (acc : List Char) :
    splitlinesAux [] acc = if acc.isEmpty then [] else [acc.reverse] := rfl

theorem sl_non (c : Char) (rest acc : List Char) (h : isBreakChar c = false) :
    splitlinesAux (c :: rest) acc = splitlinesAux rest (c :: acc) := by
  cases rest with
  | nil => simp [splitlinesAux, h]
  | cons c2 r => simp [splitlinesAux, h]

theorem sl_crlf (rest acc : List Char) :
    splitlinesAux ('\r' :: '\n' :: rest) acc =
      (acc.reverse ++ ['\r', '\n']) :: splitlinesAux rest [] := by
  simp [splitlinesAux, show isBreakChar '\r' = true from rfl]

theorem sl_brk (c : Char) (rest acc : List Char) (h : isBreakChar c = true)
    (h2 : ¬(c = '\r' ∧ rest.head? = some '\n')) :
    splitlinesAux (c :: rest) acc = (acc.reverse ++ [c]) :: splitlinesAux rest [] := by
  cases rest with
  | nil => simp [splitlinesAux, h]
  | cons c2 r =>
    have h3 : ¬(c = '\r' ∧ c2 = '\n') := by
      intro hc; exact h2 ⟨hc.1, by simp [hc.2]⟩
    simp [splitlinesAux, h, h3]

theorem sl_body (body : PyStr) (h : noBrk body = true) :
    ∀ (rest acc : List Char),
      splitlinesAux (body ++ rest) acc = splitlinesAux rest (body.reverse ++ acc) := by
  induction body with
  | nil => intro rest acc; simp
  | cons c body ih =>
    intro rest acc
    rw [noBrk_cons, Bool.and_eq_true, Bool.not_eq_true'] at h
    rw [List.cons_append, sl_non c _ _ h.1, ih h.2]
    simp

theorem join_splitlinesAux :
    ∀ (t acc : List Char), pyJoin (splitlinesAux t acc) = acc.reverse ++ t := by
  intro t acc
  induction t, acc using splitlinesAux.induct with
  | case1 acc h =>
    simp [splitlinesAux, pyJoin, List.isEmpty_iff.mp h]
  | case2 acc h =>
    simp [splitlinesAux, pyJoin, h]
  | case3 c acc h =>
    simp [splitlinesAux, pyJoin, h]
  | case4 c acc h =>
    simp [splitlinesAux, pyJoin, h]
  | case5 c c2 rest acc h hc ih =>
    obtain ⟨rfl, rfl⟩ := hc
    rw [sl_crlf]
    simp only [pyJoin, List.flatten_cons] at ih ⊢
    simp [ih]
  | case6 c c2 rest acc h hc ih =>
    rw [sl_brk c (c2 :: rest) acc h (by
      intro hx
      exact hc ⟨hx.1, by simpa using hx.2⟩)]
    simp only [pyJoin, List.flatten_cons] at ih ⊢
    simp [ih]
  | case7 c c2 rest acc h ih =>
    rw [sl_non c _ _ (by simpa using h), ih]
    simp

theorem join_splitlinesK (t : PyStr) : pyJoin (splitlinesK t) = t := by
  simpa using join_splitlinesAux t []

theorem splitlinesK_inj (a b : PyStr) (h : splitlinesK a = splitlinesK b) : a = b := by
  have ha := join_splitlinesK a
  rw [h, join_splitlinesK] at ha
  exact ha.symm

theorem reverse_ne_nil_of_ne_nil (acc : List Char) (hne : acc ≠ []) : acc.reverse ≠ [] := by
  simpa using hne

theorem sl_first :
    ∀ (t acc : List Char), acc ≠ [] →
      ∃ p ps, splitlinesAux t acc = p :: ps ∧ p.head? = acc.reverse.head? := by
  intro t acc
  induction t, acc using splitlinesAux.induct with
  | case1 acc h =>
    intro hne
    exact absurd (List.isEmpty_iff.mp h) hne
  | case2 acc h =>
    intro hne
    exact ⟨acc.reverse, [], by simp [splitlinesAux, h], rfl⟩
  | case3 c acc h =>
    intro hne
    obtain ⟨a, t, ht⟩ := List.exists_cons_of_ne_nil (reverse_ne_nil_of_ne_nil acc hne)
    exact ⟨acc.reverse ++ [c], [], by simp [splitlinesAux, h], by simp [ht]⟩
  | case4 c acc h =>
    intro hne
    obtain ⟨a, t, ht⟩ := List.exists_cons_of_ne_nil (reverse_ne_nil_of_ne_nil acc hne)
    refine ⟨(c :: acc).reverse, [], by simp [splitlinesAux, h], ?_⟩
    simp [ht]
  | case5 c c2 rest acc h hc ih =>
    intro hne
    obtain ⟨rfl, rfl⟩ := hc
    obtain ⟨a, t, ht⟩ := List.exists_cons_of_ne_nil (reverse_ne_nil_of_ne_nil acc hne)
    rw [sl_crlf]
    exact ⟨acc.reverse ++ ['\r', '\n'], _, rfl, by simp [ht]⟩
  | case6 c c2 rest acc h hc ih =>
    intro hne
    obtain ⟨a, t, ht⟩ := List.exists_cons_of_ne_nil (reverse_ne_nil_of_ne_nil acc hne)
    rw [sl_brk c (c2 :: rest) acc h (by
      intro hx
      exact hc ⟨hx.1, by simpa using hx.2⟩)]
    exact ⟨acc.reverse ++ [c], _, rfl, by simp [ht]⟩
  | case7 c c2 rest acc h ih =>
    intro hne
    obtain ⟨p, ps, hres, hhead⟩ := ih (by simp)
    refine ⟨p, ps, by rw [sl_non c _ _ (by simpa using h)]; exact hres, ?_⟩
    rw [hhead]
    obtain ⟨a, t, ht⟩ := List.exists_cons_of_ne_nil (reverse_ne_nil_of_ne_nil acc hne)
    simp [ht]

theorem sl_head (t : List Char) (hne : t ≠ []) :
    ∃ p ps, splitlinesAux t [] = p :: ps ∧ p.head? = t.head? := by
  cases t with
  | nil => exact absurd rfl hne
  | cons c rest =>
    by_cases hb : isBreakChar c = true
    · cases rest with
      | nil =>
        exact ⟨[c], [], by simp [splitlinesAux, hb], rfl⟩
      | cons c2 r =>
        by_cases hc : c = '\r' ∧ c2 = '\n'
        · obtain ⟨rfl, rfl⟩ := hc
          rw [sl_crlf]
          exact ⟨['\r', '\n'], splitlinesAux r [], by simp, rfl⟩
        · rw [sl_brk c (c2 :: r) [] hb (by
            intro hx
            exact hc ⟨hx.1, by simpa using hx.2⟩)]
          exact ⟨[c], splitlinesAux (c2 :: r) [], by simp, rfl⟩
    · rw [sl_non c rest [] (by simpa using hb)]
      obtain ⟨p, ps, hres, hhead⟩ := sl_first rest [c] (by simp)
      exact ⟨p, ps, hres, by simpa using hhead⟩

/-- A terminated line: a break-free body followed by one line
terminator (CRLF counts as a single terminator). -/
def TermLine (l : PyStr) : Prop :=
  ∃ b t, l = b ++ t ∧ noBrk b = true ∧
    (t = ['\r', '\n'] ∨ ∃ c, t = [c] ∧ isBreakChar c = true)

/-- A piece ending in a bare carriage return. -/
def EndsCR (l : PyStr) : Prop := l.getLast? = some '\r'

/-- Well-formed line decompositions: the pieces `splitlines` can produce.
Every piece but the last is a terminated line, the last may also be a
non-empty break-free fragment, and a piece ending in a bare CR is never
followed by a piece starting with LF (those would re-merge into a CRLF
boundary when the pieces are joined). -/
inductive Chain : List PyStr → Prop where
  | nil : Chain []
  | lastTerm (l : PyStr) : TermLine l → Chain [l]
  | lastPlain (l : PyStr) : l ≠ [] → noBrk l = true → Chain [l]
  | cons (l p : PyStr) (ps : List PyStr) : TermLine l →
      (EndsCR l → p.head? ≠ some '\n') → Chain (p :: ps) → Chain (l :: p :: ps)

theorem TermLine.ne_nil {l : PyStr} (h : TermLine l) : l ≠ [] := by
  obtain ⟨b, t, rfl, _, ht⟩ := h
  rcases ht with rfl | ⟨c, rfl, _⟩ <;> simp

theorem Chain.head_ne_nil {p : PyStr} {ps : List PyStr} (h : Chain (p :: ps)) : p ≠ [] := by
  cases h with
  | lastTerm _ ht => exact ht.ne_nil
  | lastPlain _ hne _ => exact hne
  | cons _ _ _ ht _ _ => exact ht.ne_nil

theorem chain_splitlinesAux :
    ∀ (t acc : List Char), noBrk acc = true → Chain (splitlinesAux t acc) := by
  intro t acc
  induction t, acc using splitlinesAux.induct with
  | case1 acc h =>
    intro _
    simp only [sl_nil, h, if_true]
    exact Chain.nil
  | case2 acc h =>
    intro hacc
    have hf : acc.isEmpty = false := by simpa using h
    simp only [sl_nil, hf, Bool.false_eq_true, if_false]
    exact Chain.lastPlain _ (by simpa using h) (by rwa [noBrk_reverse])
  | case3 c acc h =>
    intro hacc
    have he : splitlinesAux [c] acc = [acc.reverse ++ [c]] := by simp [splitlinesAux, h]
    rw [he]
    exact Chain.lastTerm _ ⟨acc.reverse, [c], rfl, by rwa [noBrk_reverse], Or.inr ⟨c, rfl, h⟩⟩
  | case4 c acc h =>
    intro hacc
    have he : splitlinesAux [c] acc = [(c :: acc).reverse] := by simp [splitlinesAux, h]
    rw [he]
    refine Chain.lastPlain ((c :: acc).reverse) (by simp) ?_
    rw [noBrk_reverse, noBrk_cons]
    simp only [Bool.and_eq_true, Bool.not_eq_true']
    exact ⟨by simpa using h, hacc⟩
  | case5 c c2 rest acc h hc ih =>
    intro hacc
    obtain ⟨rfl, rfl⟩ := hc
    rw [sl_crlf]
    have hterm : TermLine (acc.reverse ++ ['\r', '\n']) :=
      ⟨acc.reverse, ['\r', '\n'], rfl, by rwa [noBrk_reverse], Or.inl rfl⟩
    cases hres : splitlinesAux rest [] with
    | nil => exact Chain.lastTerm _ hterm
    | cons p ps =>
      refine Chain.cons _ _ _ hterm ?_ (hres ▸ ih rfl)
      intro hcr
      simp [EndsCR] at hcr
  | case6 c c2 rest acc h hc ih =>
    intro hacc
    rw [sl_brk c (c2 :: rest) acc h (by
      intro hx
      exact hc ⟨hx.1, by simpa using hx.2⟩)]
    have hterm : TermLine (acc.reverse ++ [c]) :=
      ⟨acc.reverse, [c], rfl, by rwa [noBrk_reverse], Or.inr ⟨c, rfl, h⟩⟩
    obtain ⟨p, ps, hres, hhead⟩ := sl_head (c2 :: rest) (by simp)
    rw [hres]
    refine Chain.cons _ _ _ hterm ?_ (hres ▸ ih rfl)
    intro hcr hpn
    have hcr2 : c = '\r' := by simpa [EndsCR] using hcr
    have hc2 : c2 = '\n' := by
      rw [hhead] at hpn
      simpa using hpn
    exact hc ⟨hcr2, hc2⟩
  | case7 c c2 rest acc h ih =>
    intro hacc
    rw [sl_non c _ _ (by simpa using h)]
    refine ih ?_
    rw [noBrk_cons]
    simp only [Bool.and_eq_true, Bool.not_eq_true']
    exact ⟨by simpa using h, hacc⟩

theorem chain_splitlinesK (t : PyStr) : Chain (splitlinesK t) :=
  chain_splitlinesAux t [] rfl

theorem splitlines_join_of_chain :
    ∀ (ps : List PyStr), Chain ps → splitlinesK (pyJoin ps) = ps := by
  intro ps h
  induction h with
  | nil => rfl
  | lastTerm l ht =>
    obtain ⟨b, t, rfl, hb, htt⟩ := ht
    have hj : pyJoin [b ++ t] = b ++ t := by simp [pyJoin]
    rw [hj]
    unfold splitlinesK
    rw [sl_body b hb t []]
    simp only [List.append_nil]
    rcases htt with rfl | ⟨c, rfl, hc⟩
    · rw [sl_crlf]
      simp [splitlinesAux]
    · rw [sl_brk c [] b.reverse hc (by simp)]
      simp [splitlinesAux]
  | lastPlain l hne hnb =>
    have hj : pyJoin [l] = l := by simp [pyJoin]
    rw [hj]
    unfold splitlinesK
    have hsb := sl_body l hnb [] []
    simp only [List.append_nil] at hsb
    rw [hsb, sl_nil]
    simp [hne]
  | cons l p ps ht hadj hchain ih =>
    obtain ⟨b, t, rfl, hb, htt⟩ := ht
    have hj : pyJoin ((b ++ t) :: p :: ps) = b ++ (t ++ pyJoin (p :: ps)) := by
      simp [pyJoin]
    rw [hj]
    unfold splitlinesK
    rw [sl_body b hb _ []]
    simp only [List.append_nil]
    have hresthead : (pyJoin (p :: ps)).head? = p.head? := by
      have hp := hchain.head_ne_nil
      obtain ⟨a, q, heq⟩ := List.exists_cons_of_ne_nil hp
      simp [pyJoin, heq]
    have hik : splitlinesAux (pyJoin (p :: ps)) [] = p :: ps := ih
    rcases htt with rfl | ⟨c, rfl, hc⟩
    · simp only [List.cons_append, List.nil_append]
      rw [sl_crlf, hik]
      simp
    · simp only [List.cons_append, List.nil_append]
      rw [sl_brk c _ _ hc (by
        intro hx
        have hcr : EndsCR (b ++ [c]) := by simp [EndsCR, hx.1]
        rw [hresthead] at hx
        exact hadj hcr hx.2), hik]
      simp

/-! ## Lemmas about the pattern matcher -/

theorem allSpace_takeWhile (l : PyStr) : allSpace (l.takeWhile isPySpace) = true := by
  rw [allSpace, List.all_eq_true]
  intro c hc
  exact List.mem_takeWhile_imp hc

theorem takeWhile_space_all (w : PyStr) (hw : allSpace w = true) :
    w.takeWhile isPySpace = w := by
  induction w with
  | nil => rfl
  | cons c w ih =>
    simp only [allSpace, List.all_cons, Bool.and_eq_true] at hw
    simp [List.takeWhile, hw.1, ih hw.2]

theorem dropWhile_space_all (w : PyStr) (hw : allSpace w = true) :
    w.dropWhile isPySpace = [] := by
  induction w with
  | nil => rfl
  | cons c w ih =>
    simp only [allSpace, List.all_cons, Bool.and_eq_true] at hw
    simp [List.dropWhile, hw.1, ih hw.2]

theorem matchKey_some_decomp (key l g : PyStr) (h : matchKey key l = some g) :
    ∃ w1 w2 w3 r5,
      l = w1 ++ key ++ w2 ++ ':' :: w3 ++ r5 ∧
      g = w1 ++ key ++ w2 ++ ':' :: w3 ∧
      allSpace w1 = true ∧ allSpace w2 = true ∧ allSpace w3 = true ∧
      dotStarOk r5 = true := by
  simp only [matchKey] at h
  split at h
  next hpre =>
    split at h
    next r4 heq =>
      split at h
      next hds =>
        rw [Option.some.injEq] at h
        have e1 : l = l.takeWhile isPySpace ++ l.dropWhile isPySpace :=
          (List.takeWhile_append_dropWhile (p := isPySpace) (l := l)).symm
        have e2 : l.dropWhile isPySpace =
            key ++ (l.dropWhile isPySpace).drop key.length :=
          isPre_eq_take key _ hpre
        have e3 : (l.dropWhile isPySpace).drop key.length =
            ((l.dropWhile isPySpace).drop key.length).takeWhile isPySpace ++ ':' :: r4 := by
          conv_lhs => rw [← List.takeWhile_append_dropWhile (p := isPySpace)
            (l := (l.dropWhile isPySpace).drop key.length)]
          rw [heq]
        refine ⟨l.takeWhile isPySpace,
          ((l.dropWhile isPySpace).drop key.length).takeWhile isPySpace,
          r4.takeWhile isPySpace, r4.dropWhile isPySpace, ?_, h.symm,
          allSpace_takeWhile _, allSpace_takeWhile _, allSpace_takeWhile _, hds⟩
        calc l = l.takeWhile isPySpace ++ l.dropWhile isPySpace := e1
          _ = l.takeWhile isPySpace ++ (key ++ (l.dropWhile isPySpace).drop key.length) := by
            rw [← e2]
          _ = l.takeWhile isPySpace ++
              (key ++ (((l.dropWhile isPySpace).drop key.length).takeWhile isPySpace ++
                ':' :: r4)) := by rw [← e3]
          _ = l.takeWhile isPySpace ++
              (key ++ (((l.dropWhile isPySpace).drop key.length).takeWhile isPySpace ++
                ':' :: (r4.takeWhile isPySpace ++ r4.dropWhile isPySpace))) := by
            rw [List.takeWhile_append_dropWhile]
          _ = l.takeWhile isPySpace ++ key ++
              ((l.dropWhile isPySpace).drop key.length).takeWhile isPySpace ++
              ':' :: r4.takeWhile isPySpace ++ r4.dropWhile isPySpace := by
            simp [List.append_assoc]
      next => exact absurd h (by simp)
    next => exact absurd h (by simp)
  next => exact absurd h (by simp)

theorem matchKey_none_not_pre (key l : PyStr)
    (h : isPre key (l.dropWhile isPySpace) = false) : matchKey key l = none := by
  simp only [matchKey, h]
  simp

theorem matchKey_build (kc : Char) (ktl w1 w2 w3 rest l g : PyStr)
    (hkc : isPySpace kc = false)
    (h1 : allSpace w1 = true) (h2 : allSpace w2 = true) (h3 : allSpace w3 = true)
    (hrest : rest = [] ∨ ∃ x r, rest = x :: r ∧ isPySpace x = false)
    (hds : dotStarOk rest = true)
    (hl : l = w1 ++ kc :: (ktl ++ (w2 ++ ':' :: (w3 ++ rest))))
    (hg : g = w1 ++ (kc :: ktl) ++ w2 ++ ':' :: w3) :
    matchKey (kc :: ktl) l = some g := by
  subst hl
  have hx : isPySpace ':' = false := by decide
  simp only [matchKey]
  rw [takeWhile_space_append w1 kc _ h1 hkc, dropWhile_space_append w1 kc _ h1 hkc]
  have hpre : isPre (kc :: ktl) (kc :: (ktl ++ (w2 ++ ':' :: (w3 ++ rest)))) = true := by
    have hp := isPre_append_self (kc :: ktl) (w2 ++ ':' :: (w3 ++ rest))
    simpa using hp
  rw [hpre, if_pos rfl]
  have hdrop : (kc :: (ktl ++ (w2 ++ ':' :: (w3 ++ rest)))).drop (kc :: ktl).length =
      w2 ++ ':' :: (w3 ++ rest) := by simp
  rw [hdrop]
  rw [takeWhile_space_append w2 ':' _ h2 hx, dropWhile_space_append w2 ':' _ h2 hx]
  have hw3t : (w3 ++ rest).takeWhile isPySpace = w3 := by
    rcases hrest with rfl | ⟨x, r, rfl, hxs⟩
    · rw [List.append_nil]
      exact takeWhile_space_all w3 h3
    · exact takeWhile_space_append w3 x r h3 hxs
  have hw3d : (w3 ++ rest).dropWhile isPySpace = rest := by
    rcases hrest with rfl | ⟨x, r, rfl, hxs⟩
    · rw [List.append_nil]
      exact dropWhile_space_all w3 h3
    · exact dropWhile_space_append w3 x r h3 hxs
  simp only [hw3t, hw3d, hds, if_pos rfl, hg]
  simp [List.append_assoc]

theorem isPre_NAME_SRC (x : PyStr) : isPre keyNAME (keySRC ++ x) = false := rfl

theorem isPre_NAME_DIR (x : PyStr) : isPre keyNAME (keyDIR ++ x) = false := rfl

theorem isPre_SRC_DIR (x : PyStr) : isPre keySRC (keyDIR ++ x) = false := rfl

theorem matchFirst_cons_some (k : PyStr) (ks : List PyStr) (l g : PyStr)
    (h : matchKey k l = some g) : matchFirst (k :: ks) l = some g := by
  simp [matchFirst, h]

theorem matchFirst_cons_none (k : PyStr) (ks : List PyStr) (l : PyStr)
    (h : matchKey k l = none) : matchFirst (k :: ks) l = matchFirst ks l := by
  simp [matchFirst, h]

theorem matchFirst_cases (l g : PyStr) (h : matchFirst patternKeys l = some g) :
    matchKey keyNAME l = some g ∨ matchKey keySRC l = some g ∨
      matchKey keyDIR l = some g := by
  rw [show patternKeys = [keyNAME, keySRC, keyDIR] from rfl] at h
  cases hn : matchKey keyNAME l with
  | some g2 =>
    rw [matchFirst_cons_some _ _ _ _ hn] at h
    exact Or.inl h
  | none =>
    rw [matchFirst_cons_none _ _ _ hn] at h
    cases hs : matchKey keySRC l with
    | some g2 =>
      rw [matchFirst_cons_some _ _ _ _ hs] at h
      exact Or.inr (Or.inl h)
    | none =>
      rw [matchFirst_cons_none _ _ _ hs] at h
      cases hd : matchKey keyDIR l with
      | some g2 =>
        rw [matchFirst_cons_some _ _ _ _ hd] at h
        exact Or.inr (Or.inr h)
      | none =>
        rw [matchFirst_cons_none _ _ _ hd] at h
        exact absurd h (by simp [matchFirst])

/-- Re-matching a replaced line: the captured group of a replaced line is
captured again unchanged (the placeholder starts with a non-whitespace
quote, so the greedy whitespace runs stop exactly where they did). -/
theorem matchFirst_rematch (l g : PyStr) (h : matchFirst patternKeys l = some g) :
    matchFirst patternKeys (g ++ ignoredTail) = some g := by
  have htail : ignoredTail = [] ∨ ∃ x r, ignoredTail = x :: r ∧ isPySpace x = false :=
    Or.inr ⟨'"', _, rfl, rfl⟩
  have hds : dotStarOk ignoredTail = true := rfl
  rw [show patternKeys = [keyNAME, keySRC, keyDIR] from rfl]
  rcases matchFirst_cases l g h with hN | hS | hD
  · obtain ⟨w1, w2, w3, r5, _, hg, h1, h2, h3, _⟩ := matchKey_some_decomp _ _ _ hN
    have hb : matchKey keyNAME (g ++ ignoredTail) = some g := by
      refine matchKey_build 'P' ['R', 'O', 'G', 'R', 'A', 'M', '_', 'N', 'A', 'M', 'E']
        w1 w2 w3 ignoredTail _ g rfl h1 h2 h3 htail hds ?_ hg
      rw [hg]
      simp [keyNAME, List.append_assoc]
    exact matchFirst_cons_some _ _ _ _ hb
  · obtain ⟨w1, w2, w3, r5, _, hg, h1, h2, h3, _⟩ := matchKey_some_decomp _ _ _ hS
    have hdw : (g ++ ignoredTail).dropWhile isPySpace =
        keySRC ++ (w2 ++ ':' :: (w3 ++ ignoredTail)) := by
      rw [hg]
      have e : (w1 ++ keySRC ++ w2 ++ ':' :: w3) ++ ignoredTail =
          w1 ++ 'P' :: (['R', 'O', 'G', 'R', 'A', 'M', '_', 'S', 'R', 'C'] ++
            (w2 ++ ':' :: (w3 ++ ignoredTail))) := by
        simp [keySRC, List.append_assoc]
      rw [e, dropWhile_space_append w1 'P' _ h1 rfl]
      simp [keySRC]
    have hnone : matchKey keyNAME (g ++ ignoredTail) = none := by
      apply matchKey_none_not_pre
      rw [hdw]
      exact isPre_NAME_SRC _
    have hb : matchKey keySRC (g ++ ignoredTail) = some g := by
      refine matchKey_build 'P' ['R', 'O', 'G', 'R', 'A', 'M', '_', 'S', 'R', 'C']
        w1 w2 w3 ignoredTail _ g rfl h1 h2 h3 htail hds ?_ hg
      rw [hg]
      simp [keySRC, List.append_assoc]
    rw [matchFirst_cons_none _ _ _ hnone]
    exact matchFirst_cons_some _ _ _ _ hb
  · obtain ⟨w1, w2, w3, r5, _, hg, h1, h2, h3, _⟩ := matchKey_some_decomp _ _ _ hD
    have hdw : (g ++ ignoredTail).dropWhile isPySpace =
        keyDIR ++ (w2 ++ ':' :: (w3 ++ ignoredTail)) := by
      rw [hg]
      have e : (w1 ++ keyDIR ++ w2 ++ ':' :: w3) ++ ignoredTail =
          w1 ++ 'P' :: (['R', 'O', 'G', 'R', 'A', 'M', '_', 'D', 'I', 'R'] ++
            (w2 ++ ':' :: (w3 ++ ignoredTail))) := by
        simp [keyDIR, List.append_assoc]
      rw [e, dropWhile_space_append w1 'P' _ h1 rfl]
      simp [keyDIR]
    have hnone1 : matchKey keyNAME (g ++ ignoredTail) = none := by
      apply matchKey_none_not_pre
      rw [hdw]
      exact isPre_NAME_DIR _
    have hnone2 : matchKey keySRC (g ++ ignoredTail) = none := by
      apply matchKey_none_not_pre
      rw [hdw]
      exact isPre_SRC_DIR _
    have hb : matchKey keyDIR (g ++ ignoredTail) = some g := by
      refine matchKey_build 'P' ['R', 'O', 'G', 'R', 'A', 'M', '_', 'D', 'I', 'R']
        w1 w2 w3 ignoredTail _ g rfl h1 h2 h3 htail hds ?_ hg
      rw [hg]
      simp [keyDIR, List.append_assoc]
    rw [matchFirst_cons_none _ _ _ hnone1, matchFirst_cons_none _ _ _ hnone2]
    exact matchFirst_cons_some _ _ _ _ hb

theorem normalizeLine_idem (l : PyStr) :
    normalizeLine (normalizeLine l) = normalizeLine l := by
  cases h : matchFirst patternKeys l with
  | none => simp [normalizeLine, h]
  | some g =>
    simp only [normalizeLine, h]
    rw [matchFirst_rematch l g h]

theorem matched_decomp (l g : PyStr) (h : matchFirst patternKeys l = some g) :
    ∃ key w1 w2 w3 r5,
      l = w1 ++ key ++ w2 ++ ':' :: w3 ++ r5 ∧ g = w1 ++ key ++ w2 ++ ':' :: w3 ∧
      allSpace w1 = true ∧ allSpace w2 = true ∧ allSpace w3 = true ∧
      dotStarOk r5 = true := by
  rcases matchFirst_cases l g h with hX | hX | hX <;>
  · obtain ⟨w1, w2, w3, r5, hl, hg, h1, h2, h3, h5⟩ := matchKey_some_decomp _ _ _ hX
    exact ⟨_, w1, w2, w3, r5, hl, hg, h1, h2, h3, h5⟩

theorem matched_g_ne_nil (l g : PyStr) (h : matchFirst patternKeys l = some g) :
    g ≠ [] := by
  obtain ⟨key, w1, w2, w3, r5, _, hg, _, _, _, _⟩ := matched_decomp l g h
  rw [hg]
  simp

theorem matched_prefix (l g : PyStr) (h : matchFirst patternKeys l = some g) :
    ∃ r, l = g ++ r := by
  obtain ⟨key, w1, w2, w3, r5, hl, hg, _, _, _, _⟩ := matched_decomp l g h
  exact ⟨r5, by rw [hl, hg]⟩

theorem normalizeLine_head (l : PyStr) : (normalizeLine l).head? = l.head? := by
  cases h : matchFirst patternKeys l with
  | none => simp [normalizeLine, h]
  | some g =>
    simp only [normalizeLine, h]
    obtain ⟨r, hr⟩ := matched_prefix l g h
    obtain ⟨a, q, hg⟩ := List.exists_cons_of_ne_nil (matched_g_ne_nil l g h)
    rw [hr, hg]
    simp

/-- The quoted placeholder without its trailing LF. -/
def ignoredBody : PyStr := ['"', '<', 'i', 'g', 'n', 'o', 'r', 'e', 'd', '>', '"']

theorem termLine_matched (l g : PyStr) (h : matchFirst patternKeys l = some g)
    (hnb : noBrk g = true) : TermLine (normalizeLine l) := by
  simp only [normalizeLine, h]
  refine ⟨g ++ ignoredBody, ['\n'], by simp [ignoredTail, ignoredBody], ?_,
    Or.inr ⟨'\n', rfl, rfl⟩⟩
  rw [noBrk_append, hnb]
  rfl

theorem normalizeLine_matched_getLast (l g : PyStr)
    (h : matchFirst patternKeys l = some g) :
    (normalizeLine l).getLast? = some '\n' := by
  simp only [normalizeLine, h]
  have he : g ++ ignoredTail = (g ++ ignoredBody) ++ ['\n'] := by
    simp [ignoredTail, ignoredBody]
  rw [he, List.getLast?_concat]

/-- Condition under which normalization commutes with line re-splitting:
the captured group of every matched line is free of line-boundary
characters (equivalently, no recognized key line has an empty,
whitespace-only value running into its line terminator). -/
def capOk (l : PyStr) : Bool :=
  match matchFirst patternKeys l with
  | some g => noBrk g
  | none => true

/-- Texts on which `_normalize_for_compare` is idempotent: every line's
captured group (if any) stays inside the line body. -/
def normalizeSafe (text : PyStr) : Bool := (splitlinesK text).all capOk

theorem chain_map_normalizeLine :
    ∀ (ps : List PyStr), Chain ps → (∀ l ∈ ps, capOk l = true) →
      Chain (ps.map normalizeLine) := by
  intro ps hc
  induction hc with
  | nil => intro _; exact Chain.nil
  | lastTerm l ht =>
    intro hok
    cases h : matchFirst patternKeys l with
    | none =>
      have : normalizeLine l = l := by simp [normalizeLine, h]
      simpa [this] using Chain.lastTerm l ht
    | some g =>
      have hnb : noBrk g = true := by
        have := hok l (by simp)
        rwa [capOk, h] at this
      exact Chain.lastTerm _ (termLine_matched l g h hnb)
  | lastPlain l hne hnb =>
    intro hok
    cases h : matchFirst patternKeys l with
    | none =>
      have : normalizeLine l = l := by simp [normalizeLine, h]
      simpa [this] using Chain.lastPlain l hne hnb
    | some g =>
      have hgb : noBrk g = true := by
        have := hok l (by simp)
        rwa [capOk, h] at this
      exact Chain.lastTerm _ (termLine_matched l g h hgb)
  | cons l p ps ht hadj hch ih =>
    intro hok
    have hterm : TermLine (normalizeLine l) := by
      cases h : matchFirst patternKeys l with
      | none =>
        have he : normalizeLine l = l := by simp [normalizeLine, h]
        rwa [he]
      | some g =>
        have hnb : noBrk g = true := by
          have := hok l (by simp)
          rwa [capOk, h] at this
        exact termLine_matched l g h hnb
    refine Chain.cons _ _ _ hterm ?_ (ih (fun x hx => hok x (by simp [hx])))
    intro hcr
    cases h : matchFirst patternKeys l with
    | none =>
      have he : normalizeLine l = l := by simp [normalizeLine, h]
      rw [he] at hcr
      rw [normalizeLine_head p]
      exact hadj hcr
    | some g =>
      exfalso
      have hlf := normalizeLine_matched_getLast l g h
      rw [EndsCR, hlf] at hcr
      simp at hcr

/-- Claim C7, counterexample: at the recognized path
`workflows/tag-release.yml`, the text consisting of the single line
`PROGRAM_NAME:` followed by LF is not a fixed point of a second
normalization: the greedy whitespace run of the captured group swallows
the LF, so the replacement contains two lines and the placeholder is
appended again on the second pass. -/
theorem normalize_not_idempotent :
    normalize_for_compare ("workflows/tag-release.yml").toList
        (normalize_for_compare ("workflows/tag-release.yml").toList
          ("PROGRAM_NAME:\n").toList) ≠
      normalize_for_compare ("workflows/tag-release.yml").toList
        ("PROGRAM_NAME:\n").toList := by
  decide

/-- Claim C7 (amended): normalization is idempotent for every path and
every text in which no matched line's captured group runs into the line
terminator (`normalizeSafe`), i.e. every recognized key line carries a
value with at least one non-whitespace character or sits on an
unterminated final line. -/
theorem normalize_for_compare_idem (path text : PyStr)
    (h : normalizeSafe text = true) :
    normalize_for_compare path (normalize_for_compare path text) =
      normalize_for_compare path text := by
  unfold normalize_for_compare
  by_cases hp : is_tag_release_yml path = true
  · simp only [hp, if_true]
    have hall : ∀ l ∈ splitlinesK text, capOk l = true := by
      rw [normalizeSafe, List.all_eq_true] at h
      exact h
    have hchain := chain_map_normalizeLine (splitlinesK text) (chain_splitlinesK text) hall
    rw [splitlines_join_of_chain _ hchain]
    rw [List.map_map]
    congr 1
    exact List.map_congr_left (fun a _ => normalizeLine_idem a)
  · simp [hp]

/-- Witness for the amended claim C7 at a concrete recognized file. -/
theorem normalize_for_compare_idem_witness :
    normalizeSafe ("PROGRAM_NAME: \"x\"\nenv: a\n").toList = true ∧
      normalize_for_compare ("workflows/tag-release.yml").toList
          (normalize_for_compare ("workflows/tag-release.yml").toList
            ("PROGRAM_NAME: \"x\"\nenv: a\n").toList) =
        normalize_for_compare ("workflows/tag-release.yml").toList
          ("PROGRAM_NAME: \"x\"\nenv: a\n").toList :=
  ⟨by decide, normalize_for_compare_idem _ _ (by decide)⟩

/-! ## Claim C9: terminators of rewritten lines -/

/-- Claim C9: every matched line is rewritten to end in exactly one LF,
whatever its original terminator: the rewritten line's last character is
LF and the character before it is not (it is the closing placeholder
quote); a matched line originally ending in CRLF comes out ending in a
bare LF, and a matched final line with no terminator gains one, so
normalization changes text beyond the replaced value. -/
theorem normalizeLine_ends_one_lf :
    (∀ (l g : PyStr), matchFirst patternKeys l = some g →
      (normalizeLine l).getLast? = some '\n' ∧
        (normalizeLine l).dropLast.getLast? ≠ some '\n') ∧
    normalizeLine ("PROGRAM_NAME: x\r\n").toList =
      ("PROGRAM_NAME: \"<ignored>\"\n").toList ∧
    normalizeLine ("PROGRAM_DIR: src").toList =
      ("PROGRAM_DIR: \"<ignored>\"\n").toList := by
  refine ⟨?_, by decide, by decide⟩
  intro l g h
  constructor
  · exact normalizeLine_matched_getLast l g h
  · simp only [normalizeLine, h]
    have he : g ++ ignoredTail = (g ++ ignoredBody) ++ ['\n'] := by
      simp [ignoredTail, ignoredBody]
    rw [he, List.dropLast_concat]
    have hq : (g ++ ignoredBody).getLast? = some '"' := by
      rw [List.getLast?_append]
      rfl
    rw [hq]
    decide

/-- Witness for claim C9 at a concrete matched line with a CRLF
terminator. -/
theorem normalizeLine_ends_one_lf_witness :
    (normalizeLine ("  PROGRAM_SRC:\tval\r\n").toList).getLast? = some '\n' ∧
      (normalizeLine ("  PROGRAM_SRC:\tval\r\n").toList).dropLast.getLast? ≠
        some '\n' :=
  normalizeLine_ends_one_lf.1 ("  PROGRAM_SRC:\tval\r\n").toList
    ("  PROGRAM_SRC:\t").toList (by decide)

/-! ## Claims C1 and C2: comparator behaviour on normalized content -/

theorem pyStrip_eq_nil_iff (l : PyStr) : pyStrip l = [] ↔ l.all isPySpace = true := by
  unfold pyStrip
  constructor
  · intro h
    rw [List.reverse_eq_nil_iff, List.dropWhile_eq_nil_iff] at h
    rw [List.all_eq_true]
    intro c hc
    rw [← List.takeWhile_append_dropWhile (p := isPySpace) (l := l)] at hc
    rcases List.mem_append.mp hc with hc | hc
    · exact List.mem_takeWhile_imp hc
    · exact h c (List.mem_reverse.mpr hc)
  · intro h
    have hd : l.dropWhile isPySpace = [] := by
      rw [List.dropWhile_eq_nil_iff]
      intro a ha
      rw [List.all_eq_true] at h
      exact h a ha
    simp [hd]

theorem pyStrip_ne_nil_of_mem (l : PyStr) (c : Char) (hc : c ∈ l)
    (hs : isPySpace c = false) : pyStrip l ≠ [] := by
  intro h
  rw [pyStrip_eq_nil_iff, List.all_eq_true] at h
  exact absurd (h c hc) (by rw [hs]; exact Bool.false_ne_true)

/-- Claim C2: strategy agreement.  For any two files whose normalized
contents are byte-identical, the `diff` and `hash` strategies both
report "same"; for any two files whose normalized contents differ at
some position where at least one side holds a non-whitespace character,
both report "differ". -/
theorem strategy_agreement (srcPath dstPath : PyStr) (src dst : FData) :
    (normalize_for_compare srcPath src.text = normalize_for_compare dstPath dst.text →
      files_differ srcPath src dstPath dst .diff = false ∧
      files_differ srcPath src dstPath dst .hash = false) ∧
    ((∃ i : Nat, (normalize_for_compare srcPath src.text)[i]? ≠
        (normalize_for_compare dstPath dst.text)[i]? ∧
        ((∃ c, (normalize_for_compare srcPath src.text)[i]? = some c ∧
            isPySpace c = false) ∨
         (∃ c, (normalize_for_compare dstPath dst.text)[i]? = some c ∧
            isPySpace c = false))) →
      files_differ srcPath src dstPath dst .diff = true ∧
      files_differ srcPath src dstPath dst .hash = true) := by
  constructor
  · intro h
    constructor
    · show (if pyStrip (make_unified_diff srcPath src.text dstPath dst.text) = []
        then false else true) = false
      unfold make_unified_diff unified_diff
      rw [h, if_pos rfl]
      simp [joinNL, pyStrip]
    · show (if calc_sha256_for_compare srcPath src.text =
          calc_sha256_for_compare dstPath dst.text then false else true) = false
      unfold calc_sha256_for_compare
      rw [if_pos h]
  · intro hex
    obtain ⟨i, hne, _⟩ := hex
    have hneq : normalize_for_compare srcPath src.text ≠
        normalize_for_compare dstPath dst.text := by
      intro he
      exact hne (by rw [he])
    constructor
    · show (if pyStrip (make_unified_diff srcPath src.text dstPath dst.text) = []
        then false else true) = true
      unfold make_unified_diff unified_diff
      have hsne : splitlinesK (normalize_for_compare dstPath dst.text) ≠
          splitlinesK (normalize_for_compare srcPath src.text) := by
        intro he
        exact hneq ((splitlinesK_inj _ _ he).symm)
      rw [if_neg hsne]
      rw [if_neg ?_]
      apply pyStrip_ne_nil_of_mem _ '-'
      · rw [show joinNL ((['-', '-', '-', ' '] ++ dstPath) ::
            (['+', '+', '+', ' '] ++ srcPath) :: ['@', '@', ' ', '@', '@'] ::
            ((splitlinesK (normalize_for_compare dstPath dst.text)).map
              (fun l => '-' :: l) ++
             (splitlinesK (normalize_for_compare srcPath src.text)).map
              (fun l => '+' :: l))) =
            (['-', '-', '-', ' '] ++ dstPath) ++ '\n' ::
              joinNL ((['+', '+', '+', ' '] ++ srcPath) :: ['@', '@', ' ', '@', '@'] ::
                ((splitlinesK (normalize_for_compare dstPath dst.text)).map
                  (fun l => '-' :: l) ++
                 (splitlinesK (normalize_for_compare srcPath src.text)).map
                  (fun l => '+' :: l))) from rfl]
        exact List.mem_append.mpr (Or.inl (by simp))
      · rfl
    · show (if calc_sha256_for_compare srcPath src.text =
          calc_sha256_for_compare dstPath dst.text then false else true) = true
      unfold calc_sha256_for_compare
      rw [if_neg hneq]

/-- Witness for claim C2: one pair of recognized files that differ only
in a masked `PROGRAM_NAME` value (normalized contents identical, both
strategies say "same"), and one pair of plain files differing at a
non-whitespace position (both strategies say "differ"). -/
theorem strategy_agreement_witness :
    (files_differ ("a/workflows/tag-release.yml").toList
        ⟨("PROGRAM_NAME: \"foo\"\n").toList, 0⟩
        ("b/workflows/tag-release.yml").toList
        ⟨("PROGRAM_NAME: \"bar\"\n").toList, 1⟩ .diff = false ∧
      files_differ ("a/workflows/tag-release.yml").toList
        ⟨("PROGRAM_NAME: \"foo\"\n").toList, 0⟩
        ("b/workflows/tag-release.yml").toList
        ⟨("PROGRAM_NAME: \"bar\"\n").toList, 1⟩ .hash = false) ∧
    (files_differ ("a/x.txt").toList ⟨("abc").toList, 0⟩
        ("b/x.txt").toList ⟨("abd").toList, 1⟩ .diff = true ∧
      files_differ ("a/x.txt").toList ⟨("abc").toList, 0⟩
        ("b/x.txt").toList ⟨("abd").toList, 1⟩ .hash = true) :=
  ⟨(strategy_agreement _ _ _ _).1 (by decide),
   (strategy_agreement _ _ _ _).2 ⟨2, by decide, Or.inl ⟨'c', by decide, by decide⟩⟩⟩

/-- The three lines of a small recognized workflow file whose
`PROGRAM_NAME` value is `v`: a neutral first line, the key line with two
spaces of indentation, and a neutral last line. -/
def tagYmlLines (v : PyStr) : List PyStr :=
  [("env: a\n").toList, ("  PROGRAM_NAME: ").toList ++ (v ++ ['\n']),
   ("jobs: b\n").toList]

/-- The file content with `PROGRAM_NAME` value `v`. -/
def tagYmlWith (v : PyStr) : PyStr := pyJoin (tagYmlLines v)

theorem noBrk_no_lf (v : PyStr) (h : noBrk v = true) :
    v.all (fun c => !(c = '\n')) = true := by
  rw [noBrk, List.all_eq_true] at h
  rw [List.all_eq_true]
  intro c hc
  have hb := h c hc
  by_cases hcc : c = '\n'
  · subst hcc
    exact absurd hb (by decide)
  · simp [hcc]

theorem chain_tagYmlLines (c : Char) (vt : PyStr) (hnb : noBrk (c :: vt) = true) :
    Chain (tagYmlLines (c :: vt)) := by
  refine Chain.cons _ _ _ ⟨("env: a").toList, ['\n'], by decide, by decide,
    Or.inr ⟨'\n', rfl, by decide⟩⟩
    (fun hcr => absurd (show ("env: a\n").toList.getLast? = some '\r' from hcr)
      (by decide)) ?_
  refine Chain.cons _ _ _ ⟨("  PROGRAM_NAME: ").toList ++ (c :: vt), ['\n'], by simp, ?_,
    Or.inr ⟨'\n', rfl, by decide⟩⟩ ?_ ?_
  · rw [noBrk_append, hnb]
    decide
  · intro hcr
    exfalso
    rw [EndsCR, show ("  PROGRAM_NAME: ").toList ++ ((c :: vt) ++ ['\n']) =
      (("  PROGRAM_NAME: ").toList ++ (c :: vt)) ++ ['\n'] by simp,
      List.getLast?_concat] at hcr
    simp at hcr
  · exact Chain.lastTerm _ ⟨("jobs: b").toList, ['\n'], by decide, by decide,
      Or.inr ⟨'\n', rfl, by decide⟩⟩

theorem matchFirst_keyline (c : Char) (vt : PyStr) (hc : isPySpace c = false)
    (hnb : noBrk (c :: vt) = true) :
    matchFirst patternKeys (("  PROGRAM_NAME: ").toList ++ ((c :: vt) ++ ['\n'])) =
      some (("  PROGRAM_NAME: ").toList) := by
  rw [show patternKeys = [keyNAME, keySRC, keyDIR] from rfl]
  apply matchFirst_cons_some
  refine matchKey_build 'P' ['R', 'O', 'G', 'R', 'A', 'M', '_', 'N', 'A', 'M', 'E']
    [' ', ' '] [] [' '] ((c :: vt) ++ ['\n']) _ _ (by decide) (by decide) rfl (by decide)
    (Or.inr ⟨c, vt ++ ['\n'], by simp, hc⟩) ?_ ?_ (by decide)
  · show dotStarOk ((c :: vt) ++ ['\n']) = true
    unfold dotStarOk
    rw [List.dropLast_concat]
    exact noBrk_no_lf _ hnb
  · rw [show ("  PROGRAM_NAME: ").toList =
      [' ', ' ', 'P', 'R', 'O', 'G', 'R', 'A', 'M', '_', 'N', 'A', 'M', 'E', ':', ' ']
      from by decide]
    simp

/-- Normalizing the small workflow file masks the `PROGRAM_NAME` value:
the result does not depend on `v` at all (for any value starting with a
non-whitespace character and free of line boundaries). -/
theorem normalize_tagYmlWith (p : PyStr) (hp : is_tag_release_yml p = true)
    (c : Char) (vt : PyStr) (hc : isPySpace c = false)
    (hnb : noBrk (c :: vt) = true) :
    normalize_for_compare p (tagYmlWith (c :: vt)) =
      ("env: a\n  PROGRAM_NAME: \"<ignored>\"\njobs: b\n").toList := by
  unfold normalize_for_compare
  rw [hp, if_pos rfl]
  unfold tagYmlWith
  rw [splitlines_join_of_chain _ (chain_tagYmlLines c vt hnb)]
  unfold tagYmlLines
  rw [List.map_cons, List.map_cons, List.map_cons, List.map_nil]
  rw [show normalizeLine (("env: a\n").toList) = ("env: a\n").toList from by decide]
  rw [show normalizeLine (("jobs: b\n").toList) = ("jobs: b\n").toList from by decide]
  rw [show normalizeLine (("  PROGRAM_NAME: ").toList ++ ((c :: vt) ++ ['\n'])) =
      ("  PROGRAM_NAME: ").toList ++ ignoredTail from by
    unfold normalizeLine
    rw [matchFirst_keyline c vt hc hnb]]
  decide

/-- Claim C1, counterexample: `cfg.yml` is not a recognized file —
`_is_tag_release_yml` recognizes only `tag-release.yml` paths — so a
`PROGRAM_NAME` value difference in `cfg.yml` is not masked: the `hash`
(contentHash) and `diff` (unifiedDiff) strategies both report "differ"
where the claim asserts "same". -/
theorem cfg_yml_not_masked :
    files_differ ("template/cfg.yml").toList
        ⟨("PROGRAM_NAME: \"bar\"\n").toList, 0⟩
        ("repo/cfg.yml").toList ⟨("PROGRAM_NAME: \"foo\"\n").toList, 1⟩
        .hash = true ∧
    files_differ ("template/cfg.yml").toList
        ⟨("PROGRAM_NAME: \"bar\"\n").toList, 0⟩
        ("repo/cfg.yml").toList ⟨("PROGRAM_NAME: \"foo\"\n").toList, 1⟩
        .diff = true ∧
    is_tag_release_yml ("repo/cfg.yml").toList = false := by
  exact ⟨by decide, by decide, by decide⟩

/-- Claim C1 (amended): with the recognized file
`.github/workflows/tag-release.yml` in place of `cfg.yml`: if the target
has the file with one `PROGRAM_NAME` value and the source the identical
file with another value, the `hash` (contentHash) and `diff`
(unifiedDiff) strategies report "same" (normalization masks the
difference), while the `size` strategy reports "differ" whenever the two
files' byte lengths differ. -/
theorem tag_release_value_masked (srcPath dstPath : PyStr)
    (hsp : is_tag_release_yml srcPath = true)
    (hdp : is_tag_release_yml dstPath = true)
    (c1 c2 : Char) (vt1 vt2 : PyStr) (m1 m2 : Int)
    (hc1 : isPySpace c1 = false) (hc2 : isPySpace c2 = false)
    (hnb1 : noBrk (c1 :: vt1) = true) (hnb2 : noBrk (c2 :: vt2) = true) :
    files_differ srcPath ⟨tagYmlWith (c1 :: vt1), m1⟩ dstPath
        ⟨tagYmlWith (c2 :: vt2), m2⟩ .hash = false ∧
    files_differ srcPath ⟨tagYmlWith (c1 :: vt1), m1⟩ dstPath
        ⟨tagYmlWith (c2 :: vt2), m2⟩ .diff = false ∧
    (sizeBytes (tagYmlWith (c1 :: vt1)) ≠ sizeBytes (tagYmlWith (c2 :: vt2)) →
      files_differ srcPath ⟨tagYmlWith (c1 :: vt1), m1⟩ dstPath
        ⟨tagYmlWith (c2 :: vt2), m2⟩ .size = true) := by
  have hn : normalize_for_compare srcPath (tagYmlWith (c1 :: vt1)) =
      normalize_for_compare dstPath (tagYmlWith (c2 :: vt2)) := by
    rw [normalize_tagYmlWith srcPath hsp c1 vt1 hc1 hnb1,
      normalize_tagYmlWith dstPath hdp c2 vt2 hc2 hnb2]
  refine ⟨?_, ?_, ?_⟩
  · show (if calc_sha256_for_compare srcPath (tagYmlWith (c1 :: vt1)) =
        calc_sha256_for_compare dstPath (tagYmlWith (c2 :: vt2))
      then false else true) = false
    unfold calc_sha256_for_compare
    rw [if_pos hn]
  · show (if pyStrip (make_unified_diff srcPath (tagYmlWith (c1 :: vt1)) dstPath
        (tagYmlWith (c2 :: vt2))) = [] then false else true) = false
    unfold make_unified_diff unified_diff
    rw [hn, if_pos rfl]
    simp [joinNL, pyStrip]
  · intro hsz
    show (if sizeBytes (tagYmlWith (c1 :: vt1)) = sizeBytes (tagYmlWith (c2 :: vt2))
      then false else true) = true
    rw [if_neg hsz]

/-- Witness for the amended claim C1: values `foo` and `barbaz` in
`.github/workflows/tag-release.yml` files, whose byte lengths differ. -/
theorem tag_release_value_masked_witness :
    files_differ (".github/workflows/tag-release.yml").toList
        ⟨tagYmlWith ('f' :: ("oo").toList), 5⟩
        ("sub/.github/workflows/tag-release.yml").toList
        ⟨tagYmlWith ('b' :: ("arbaz").toList), 7⟩ .hash = false ∧
    files_differ (".github/workflows/tag-release.yml").toList
        ⟨tagYmlWith ('f' :: ("oo").toList), 5⟩
        ("sub/.github/workflows/tag-release.yml").toList
        ⟨tagYmlWith ('b' :: ("arbaz").toList), 7⟩ .diff = false ∧
    files_differ (".github/workflows/tag-release.yml").toList
        ⟨tagYmlWith ('f' :: ("oo").toList), 5⟩
        ("sub/.github/workflows/tag-release.yml").toList
        ⟨tagYmlWith ('b' :: ("arbaz").toList), 7⟩ .size = true := by
  have h := tag_release_value_masked (".github/workflows/tag-release.yml").toList
    ("sub/.github/workflows/tag-release.yml").toList (by decide) (by decide)
    'f' 'b' ("oo").toList ("arbaz").toList 5 7 (by decide) (by decide)
    (by decide) (by decide)
  exact ⟨h.1, h.2.1, h.2.2 (by decide)⟩

/-! ## Claims C5 and C6: the backup path allocator -/

theorem nbpLoop_spec (ex : PyStr → Bool) (base : PyStr) :
    ∀ (fuel i k : Nat), 1 ≤ i → i ≤ k → k + 1 - i ≤ fuel →
      ex (base ++ '.' :: (Nat.repr k).data) = false →
      (∀ m, 1 ≤ m → m < i → ex (base ++ '.' :: (Nat.repr m).data) = true) →
      ∃ j, i ≤ j ∧ j ≤ k ∧
        nbpLoop ex base i fuel = some (base ++ '.' :: (Nat.repr j).data) ∧
        ex (base ++ '.' :: (Nat.repr j).data) = false ∧
        ∀ m, 1 ≤ m → m < j → ex (base ++ '.' :: (Nat.repr m).data) = true := by
  intro fuel
  induction fuel with
  | zero =>
    intro i k h1 hik hfuel _ _
    omega
  | succ fuel ih =>
    intro i k h1 hik hfuel hfree hprev
    unfold nbpLoop
    cases hex : ex (base ++ '.' :: (Nat.repr i).data) with
    | false =>
      exact ⟨i, Nat.le_refl i, hik, by simp [hex], hex, hprev⟩
    | true =>
      have hik2 : i < k := by
        rcases Nat.lt_or_ge i k with h | h
        · exact h
        · exfalso
          have : i = k := Nat.le_antisymm hik h
          rw [this] at hex
          rw [hfree] at hex
          exact Bool.false_ne_true hex
      obtain ⟨j, hj1, hj2, hj3, hj4, hj5⟩ := ih (i + 1) k (by omega) (by omega)
        (by omega) hfree (by
          intro m hm1 hm2
          rcases Nat.lt_or_ge m i with h | h
          · exact hprev m hm1 h
          · have : m = i := by omega
            rw [this]
            exact hex)
      exact ⟨j, by omega, hj2, by simp [hex, hj3], hj4, hj5⟩

theorem backupCandidate_succ (dst suf : PyStr) (j : Nat) (h : 1 ≤ j) :
    backupCandidate dst suf j = (dst ++ suf) ++ '.' :: (Nat.repr j).data := by
  cases j with
  | zero => omega
  | succ j => rfl

/-- Claim C5: `_next_backup_path` returns the first candidate in the
sequence `P + suffix`, `P + suffix + ".1"`, `P + suffix + ".2"`, … that
does not exist at call time, and never a path that exists at call time.
`ex` is the existence probe of the filesystem; `fuel` bounds the number
of numeric probes the model may take (the source loop is unbounded), so
the hypothesis asks for a free candidate within the bound. -/
theorem next_backup_first_free (ex : PyStr → Bool) (dst suf : PyStr) (k fuel : Nat)
    (hk : k ≤ fuel) (hfree : ex (backupCandidate dst suf k) = false) :
    ∃ j, j ≤ k ∧
      next_backup_path ex dst suf fuel = some (backupCandidate dst suf j) ∧
      ex (backupCandidate dst suf j) = false ∧
      ∀ m, m < j → ex (backupCandidate dst suf m) = true := by
  unfold next_backup_path
  cases hbase : ex (dst ++ suf) with
  | false =>
    refine ⟨0, Nat.zero_le k, by simp [hbase, backupCandidate], ?_, ?_⟩
    · show ex (dst ++ suf) = false
      exact hbase
    · intro m hm
      omega
  | true =>
    have hk1 : 1 ≤ k := by
      cases k with
      | zero =>
        exfalso
        have : ex (dst ++ suf) = false := hfree
        rw [this] at hbase
        exact Bool.false_ne_true hbase
      | succ k => omega
    obtain ⟨j, hj1, hj2, hj3, hj4, hj5⟩ := nbpLoop_spec ex (dst ++ suf) fuel 1 k
      (Nat.le_refl 1) hk1 (by omega)
      (by rw [← backupCandidate_succ dst suf k hk1]; exact hfree)
      (by intro m hm1 hm2; omega)
    refine ⟨j, hj2, by simp [hbase, hj3, backupCandidate_succ dst suf j hj1], ?_, ?_⟩
    · rw [backupCandidate_succ dst suf j hj1]
      exact hj4
    · intro m hm
      cases m with
      | zero => exact hbase
      | succ m =>
        rw [backupCandidate_succ dst suf (m + 1) (by omega)]
        exact hj5 (m + 1) (by omega) hm

/-- Witness for claim C5: with `f.bak` and `f.bak.1` existing, the
allocator returns `f.bak.2`, which did not exist, skipping exactly the
taken candidates. -/
theorem next_backup_first_free_witness :
    ∃ j, j ≤ 2 ∧
      next_backup_path
          (fun p => p = ("f.bak").toList ∨ p = ("f.bak.1").toList : PyStr → Bool)
          (("f").toList) ((".bak").toList) 9 =
        some (backupCandidate (("f").toList) ((".bak").toList) j) ∧
      (fun p => p = ("f.bak").toList ∨ p = ("f.bak.1").toList : PyStr → Bool)
          (backupCandidate (("f").toList) ((".bak").toList) j) = false ∧
      ∀ m, m < j →
        (fun p => p = ("f.bak").toList ∨ p = ("f.bak.1").toList : PyStr → Bool)
            (backupCandidate (("f").toList) ((".bak").toList) m) = true :=
  next_backup_first_free _ (("f").toList) ((".bak").toList) 2 9 (by omega) (by decide)

/-- Claim C6: the source's probing loop is `while True` with no bound and
no `BackupAllocationExhausted` error; on a filesystem where every probed
candidate exists it never returns.  In the fuel-indexed model: for every
probe bound whatsoever, allocation has not produced a result. -/
theorem next_backup_all_taken :
    ∀ (dst suf : PyStr) (fuel : Nat),
      next_backup_path (fun _ => true) dst suf fuel = none := by
  have hloop : ∀ (base : PyStr) (fuel i : Nat),
      nbpLoop (fun _ => true) base i fuel = none := by
    intro base fuel
    induction fuel with
    | zero => intro i; rfl
    | succ fuel ih => intro i; simp [nbpLoop, ih]
  intro dst suf fuel
  unfold next_backup_path
  simp [hloop]

/-! ## Claims C3, C4, C8, C10: the tree synchronizer -/

theorem hf_new (ctx : Ctx) (srcP dstP : PyStr) (st : St)
    (hex : fsExists st.fs dstP = false) :
    handle_file ctx srcP dstP st =
      some ({ st with fs := fsCopy2 st.fs srcP dstP,
                      totals := { st.totals with copied := st.totals.copied + 1 } },
        [.copyEv srcP dstP]) := by
  unfold handle_file
  rw [if_pos hex]

theorem hf_skip (ctx : Ctx) (srcP dstP : PyStr) (st : St)
    (hex : fsExists st.fs dstP = true) (ho : ctx.on_existing = .skip) :
    handle_file ctx srcP dstP st =
      some ({ st with totals := { st.totals with skipped := st.totals.skipped + 1 } },
        []) := by
  unfold handle_file
  rw [if_neg (by simp [hex])]
  simp only [ho]

theorem hf_over (ctx : Ctx) (srcP dstP : PyStr) (st : St)
    (hex : fsExists st.fs dstP = true) (ho : ctx.on_existing = .overwrite) :
    handle_file ctx srcP dstP st =
      some ({ st with fs := fsCopy2 st.fs srcP dstP,
                      totals := { st.totals with
                        overwritten := st.totals.overwritten + 1 } },
        [.copyEv srcP dstP]) := by
  unfold handle_file
  rw [if_neg (by simp [hex])]
  simp only [ho]

theorem hf_ask_same (ctx : Ctx) (srcP dstP : PyStr) (st : St)
    (hex : fsExists st.fs dstP = true) (ho : ctx.on_existing = .ask)
    (hd : conflict_differ ctx srcP dstP st.fs = false) :
    handle_file ctx srcP dstP st =
      some ({ st with totals := { st.totals with skipped := st.totals.skipped + 1 } },
        [.compareEv srcP dstP]) := by
  unfold handle_file
  rw [if_neg (by simp [hex])]
  simp only [ho, hd]
  rfl

theorem hf_ask_eof (ctx : Ctx) (srcP dstP : PyStr) (st : St)
    (hex : fsExists st.fs dstP = true) (ho : ctx.on_existing = .ask)
    (hd : conflict_differ ctx srcP dstP st.fs = true)
    (hp : prompt_existing_file_action ctx.isatty st.inputs = none) :
    handle_file ctx srcP dstP st = none := by
  unfold handle_file
  rw [if_neg (by simp [hex])]
  simp only [ho, hd, hp]
  rfl

theorem hf_ask_skip (ctx : Ctx) (srcP dstP : PyStr) (st : St) (rest : List PyStr)
    (hex : fsExists st.fs dstP = true) (ho : ctx.on_existing = .ask)
    (hd : conflict_differ ctx srcP dstP st.fs = true)
    (hp : prompt_existing_file_action ctx.isatty st.inputs = some (.skip, rest)) :
    handle_file ctx srcP dstP st =
      some ({ st with inputs := rest,
                      totals := { st.totals with skipped := st.totals.skipped + 1 } },
        [.compareEv srcP dstP, .promptEv dstP]) := by
  unfold handle_file
  rw [if_neg (by simp [hex])]
  simp only [ho, hd, hp]
  rfl

theorem hf_ask_over (ctx : Ctx) (srcP dstP : PyStr) (st : St) (rest : List PyStr)
    (hex : fsExists st.fs dstP = true) (ho : ctx.on_existing = .ask)
    (hd : conflict_differ ctx srcP dstP st.fs = true)
    (hp : prompt_existing_file_action ctx.isatty st.inputs = some (.overwrite, rest)) :
    handle_file ctx srcP dstP st =
      some ({ st with fs := fsCopy2 st.fs srcP dstP, inputs := rest,
                      totals := { st.totals with
                        overwritten := st.totals.overwritten + 1 } },
        [.compareEv srcP dstP, .promptEv dstP, .copyEv srcP dstP]) := by
  unfold handle_file
  rw [if_neg (by simp [hex])]
  simp only [ho, hd, hp]
  rfl

theorem hf_ask_backup (ctx : Ctx) (srcP dstP : PyStr) (st : St) (rest : List PyStr)
    (bp : PyStr)
    (hex : fsExists st.fs dstP = true) (ho : ctx.on_existing = .ask)
    (hd : conflict_differ ctx srcP dstP st.fs = true)
    (hp : prompt_existing_file_action ctx.isatty st.inputs =
      some (.backup_overwrite, rest))
    (hb : next_backup_path (fsExists st.fs) dstP ctx.backup_suffix ctx.bfuel =
      some bp) :
    handle_file ctx srcP dstP st =
      some ({ st with fs := fsCopy2 (fsCopy2 st.fs dstP bp) srcP dstP, inputs := rest,
                      totals := { st.totals with
                        overwritten := st.totals.overwritten + 1 } },
        [.compareEv srcP dstP, .promptEv dstP, .copyEv dstP bp, .copyEv srcP dstP]) := by
  unfold handle_file
  rw [if_neg (by simp [hex])]
  simp only [ho, hd, hp, hb]
  rfl

theorem hf_ask_backup_exhausted (ctx : Ctx) (srcP dstP : PyStr) (st : St)
    (rest : List PyStr)
    (hex : fsExists st.fs dstP = true) (ho : ctx.on_existing = .ask)
    (hd : conflict_differ ctx srcP dstP st.fs = true)
    (hp : prompt_existing_file_action ctx.isatty st.inputs =
      some (.backup_overwrite, rest))
    (hb : next_backup_path (fsExists st.fs) dstP ctx.backup_suffix ctx.bfuel = none) :
    handle_file ctx srcP dstP st = none := by
  unfold handle_file
  rw [if_neg (by simp [hex])]
  simp only [ho, hd, hp, hb]
  rfl

/-- Exhaustive case analysis on one `handle_file` call that returned a
result: exactly one of the six successful branches applies. -/
theorem handle_file_cases (ctx : Ctx) (srcP dstP : PyStr) (st st2 : St)
    (evs : List Ev) (h : handle_file ctx srcP dstP st = some (st2, evs)) :
    (fsExists st.fs dstP = false ∧
      st2 = { st with fs := fsCopy2 st.fs srcP dstP,
                      totals := { st.totals with copied := st.totals.copied + 1 } } ∧
      evs = [.copyEv srcP dstP]) ∨
    (fsExists st.fs dstP = true ∧ ctx.on_existing = .skip ∧
      st2 = { st with totals := { st.totals with
        skipped := st.totals.skipped + 1 } } ∧ evs = []) ∨
    (fsExists st.fs dstP = true ∧ ctx.on_existing = .overwrite ∧
      st2 = { st with fs := fsCopy2 st.fs srcP dstP,
                      totals := { st.totals with
                        overwritten := st.totals.overwritten + 1 } } ∧
      evs = [.copyEv srcP dstP]) ∨
    (fsExists st.fs dstP = true ∧ ctx.on_existing = .ask ∧
      conflict_differ ctx srcP dstP st.fs = false ∧
      st2 = { st with totals := { st.totals with
        skipped := st.totals.skipped + 1 } } ∧
      evs = [.compareEv srcP dstP]) ∨
    (∃ rest, fsExists st.fs dstP = true ∧ ctx.on_existing = .ask ∧
      conflict_differ ctx srcP dstP st.fs = true ∧
      prompt_existing_file_action ctx.isatty st.inputs = some (.skip, rest) ∧
      st2 = { st with inputs := rest,
                      totals := { st.totals with
                        skipped := st.totals.skipped + 1 } } ∧
      evs = [.compareEv srcP dstP, .promptEv dstP]) ∨
    (∃ rest, fsExists st.fs dstP = true ∧ ctx.on_existing = .ask ∧
      conflict_differ ctx srcP dstP st.fs = true ∧
      prompt_existing_file_action ctx.isatty st.inputs = some (.overwrite, rest) ∧
      st2 = { st with fs := fsCopy2 st.fs srcP dstP, inputs := rest,
                      totals := { st.totals with
                        overwritten := st.totals.overwritten + 1 } } ∧
      evs = [.compareEv srcP dstP, .promptEv dstP, .copyEv srcP dstP]) ∨
    (∃ rest bp, fsExists st.fs dstP = true ∧ ctx.on_existing = .ask ∧
      conflict_differ ctx srcP dstP st.fs = true ∧
      prompt_existing_file_action ctx.isatty st.inputs =
        some (.backup_overwrite, rest) ∧
      next_backup_path (fsExists st.fs) dstP ctx.backup_suffix ctx.bfuel = some bp ∧
      st2 = { st with fs := fsCopy2 (fsCopy2 st.fs dstP bp) srcP dstP,
                      inputs := rest,
                      totals := { st.totals with
                        overwritten := st.totals.overwritten + 1 } } ∧
      evs = [.compareEv srcP dstP, .promptEv dstP, .copyEv dstP bp,
        .copyEv srcP dstP]) := by
  cases hex : fsExists st.fs dstP with
  | false =>
    rw [hf_new ctx srcP dstP st hex] at h
    rw [Option.some.injEq, Prod.mk.injEq] at h
    exact Or.inl ⟨rfl, h.1.symm, h.2.symm⟩
  | true =>
    cases ho : ctx.on_existing with
    | skip =>
      rw [hf_skip ctx srcP dstP st hex ho] at h
      rw [Option.some.injEq, Prod.mk.injEq] at h
      exact Or.inr (Or.inl ⟨rfl, rfl, h.1.symm, h.2.symm⟩)
    | overwrite =>
      rw [hf_over ctx srcP dstP st hex ho] at h
      rw [Option.some.injEq, Prod.mk.injEq] at h
      exact Or.inr (Or.inr (Or.inl ⟨rfl, rfl, h.1.symm, h.2.symm⟩))
    | ask =>
      cases hd : conflict_differ ctx srcP dstP st.fs with
      | false =>
        rw [hf_ask_same ctx srcP dstP st hex ho hd] at h
        rw [Option.some.injEq, Prod.mk.injEq] at h
        exact Or.inr (Or.inr (Or.inr (Or.inl ⟨rfl, rfl, rfl, h.1.symm, h.2.symm⟩)))
      | true =>
        cases hp : prompt_existing_file_action ctx.isatty st.inputs with
        | none =>
          rw [hf_ask_eof ctx srcP dstP st hex ho hd hp] at h
          exact absurd h (by simp)
        | some ar =>
          obtain ⟨action, rest⟩ := ar
          cases action with
          | skip =>
            rw [hf_ask_skip ctx srcP dstP st rest hex ho hd hp] at h
            rw [Option.some.injEq, Prod.mk.injEq] at h
            exact Or.inr (Or.inr (Or.inr (Or.inr (Or.inl
              ⟨rest, rfl, rfl, rfl, rfl, h.1.symm, h.2.symm⟩))))
          | overwrite =>
            rw [hf_ask_over ctx srcP dstP st rest hex ho hd hp] at h
            rw [Option.some.injEq, Prod.mk.injEq] at h
            exact Or.inr (Or.inr (Or.inr (Or.inr (Or.inr (Or.inl
              ⟨rest, rfl, rfl, rfl, rfl, h.1.symm, h.2.symm⟩)))))
          | backup_overwrite =>
            cases hb : next_backup_path (fsExists st.fs) dstP ctx.backup_suffix
                ctx.bfuel with
            | none =>
              rw [hf_ask_backup_exhausted ctx srcP dstP st rest hex ho hd hp hb] at h
              exact absurd h (by simp)
            | some bp =>
              rw [hf_ask_backup ctx srcP dstP st rest bp hex ho hd hp hb] at h
              rw [Option.some.injEq, Prod.mk.injEq] at h
              exact Or.inr (Or.inr (Or.inr (Or.inr (Or.inr (Or.inr
                ⟨rest, bp, rfl, rfl, rfl, rfl, rfl, h.1.symm, h.2.symm⟩)))))

theorem handle_file_no_tty (ctx : Ctx) (srcP dstP : PyStr) (st st2 : St)
    (evs : List Ev) (hatty : ctx.isatty = false) (hask : ctx.on_existing = .ask)
    (h : handle_file ctx srcP dstP st = some (st2, evs)) :
    st2.totals.overwritten = st.totals.overwritten ∧ st2.inputs = st.inputs := by
  have hforced : prompt_existing_file_action ctx.isatty st.inputs =
      some (PAction.skip, st.inputs) := by
    rw [hatty]
    rfl
  rcases handle_file_cases ctx srcP dstP st st2 evs h with
    ⟨_, rfl, _⟩ | ⟨_, _, rfl, _⟩ | ⟨_, ho, _, _⟩ | ⟨_, _, _, rfl, _⟩ |
    ⟨rest, _, _, _, hp, rfl, _⟩ | ⟨rest, _, _, _, hp, _, _⟩ |
    ⟨rest, bp, _, _, _, hp, _, _, _⟩
  · exact ⟨rfl, rfl⟩
  · exact ⟨rfl, rfl⟩
  · rw [ho] at hask
    exact absurd hask (by simp)
  · exact ⟨rfl, rfl⟩
  · rw [hforced] at hp
    rw [Option.some.injEq, Prod.mk.injEq] at hp
    rw [← hp.2]
    exact ⟨rfl, rfl⟩
  · rw [hforced] at hp
    rw [Option.some.injEq, Prod.mk.injEq] at hp
    exact absurd hp.1 (by simp)
  · rw [hforced] at hp
    rw [Option.some.injEq, Prod.mk.injEq] at hp
    exact absurd hp.1 (by simp)

theorem copy_tree_no_tty (ctx : Ctx) (srcRoot dstRoot : PyStr)
    (walk : List (PyStr × Bool)) (st st2 : St)
    (hatty : ctx.isatty = false) (hask : ctx.on_existing = .ask)
    (h : copy_tree_with_policy ctx srcRoot dstRoot walk st = some st2) :
    st2.totals.overwritten = st.totals.overwritten ∧ st2.inputs = st.inputs := by
  induction walk generalizing st with
  | nil =>
    unfold copy_tree_with_policy at h
    rw [Option.some.injEq] at h
    rw [← h]
    exact ⟨rfl, rfl⟩
  | cons e rest ih =>
    unfold copy_tree_with_policy at h
    split at h
    · exact ih st h
    · split at h
      · exact absurd h (by simp)
      · next st3 evs heq =>
        obtain ⟨h1, h2⟩ := handle_file_no_tty ctx _ _ st st3 evs hatty hask heq
        obtain ⟨h3, h4⟩ := ih st3 h
        exact ⟨h3.trans h1, h4.trans h2⟩

/-- Claim C3: in a run with policy `ask` and a non-interactive stdin,
the conflict resolver always resolves to `skip` without reading input,
and the synchronizer's `overwritten` counter never moves (in particular
it is 0 when it starts at 0), with the input queue untouched. -/
theorem ask_no_tty_never_overwrites :
    (∀ (inputs : List PyStr),
      prompt_existing_file_action false inputs = some (.skip, inputs)) ∧
    (∀ (ctx : Ctx) (srcRoot dstRoot : PyStr) (walk : List (PyStr × Bool)) (st st2 : St),
      ctx.isatty = false → ctx.on_existing = .ask →
      copy_tree_with_policy ctx srcRoot dstRoot walk st = some st2 →
      st2.totals.overwritten = st.totals.overwritten ∧ st2.inputs = st.inputs) := by
  constructor
  · intro inputs
    rfl
  · intro ctx srcRoot dstRoot walk st st2 hatty hask h
    exact copy_tree_no_tty ctx srcRoot dstRoot walk st st2 hatty hask h

/-- Witness for claim C3: a run over one conflicting file (differing
contents, policy `ask`, no TTY) ends with `overwritten = 0`, `skipped =
1`, and the queued input line unread. -/
theorem ask_no_tty_never_overwrites_witness :
    prompt_existing_file_action false [("o").toList] =
      some (.skip, [("o").toList]) ∧
    copy_tree_with_policy ⟨.ask, .hash, false, (".bak").toList, false, 9⟩
        ("t").toList ("r").toList [((("a.txt").toList), false)]
        ⟨[((("t/a.txt").toList), ⟨("x").toList, 0⟩),
          ((("r/a.txt").toList), ⟨("y").toList, 1⟩)], [("o").toList], ⟨0, 0, 0⟩⟩ =
      some ⟨[((("t/a.txt").toList), ⟨("x").toList, 0⟩),
        ((("r/a.txt").toList), ⟨("y").toList, 1⟩)], [("o").toList], ⟨0, 1, 0⟩⟩ ∧
    (0 : Nat) = 0 := by
  refine ⟨ask_no_tty_never_overwrites.1 [("o").toList], rfl, ?_⟩
  have hrun := (ask_no_tty_never_overwrites.2
    ⟨.ask, .hash, false, (".bak").toList, false, 9⟩
    ("t").toList ("r").toList [((("a.txt").toList), false)]
    ⟨[((("t/a.txt").toList), ⟨("x").toList, 0⟩),
      ((("r/a.txt").toList), ⟨("y").toList, 1⟩)], [("o").toList], ⟨0, 0, 0⟩⟩
    ⟨[((("t/a.txt").toList), ⟨("x").toList, 0⟩),
      ((("r/a.txt").toList), ⟨("y").toList, 1⟩)], [("o").toList], ⟨0, 1, 0⟩⟩
    rfl rfl rfl).1
  exact hrun

theorem ct_nil (ctx : Ctx) (srcRoot dstRoot : PyStr) (st : St) :
    copy_tree_with_policy ctx srcRoot dstRoot [] st = some st := rfl

theorem ct_dir (ctx : Ctx) (srcRoot dstRoot : PyStr) (rel : PyStr)
    (rest : List (PyStr × Bool)) (st : St) :
    copy_tree_with_policy ctx srcRoot dstRoot ((rel, true) :: rest) st =
      copy_tree_with_policy ctx srcRoot dstRoot rest st := by
  conv_lhs => unfold copy_tree_with_policy
  simp

theorem ct_file_none (ctx : Ctx) (srcRoot dstRoot : PyStr) (rel : PyStr)
    (rest : List (PyStr × Bool)) (st : St)
    (h : handle_file ctx (pathJoin srcRoot rel) (pathJoin dstRoot rel) st = none) :
    copy_tree_with_policy ctx srcRoot dstRoot ((rel, false) :: rest) st = none := by
  conv_lhs => unfold copy_tree_with_policy
  simp [h]

theorem ct_file_some (ctx : Ctx) (srcRoot dstRoot : PyStr) (rel : PyStr)
    (rest : List (PyStr × Bool)) (st st3 : St) (evs : List Ev)
    (h : handle_file ctx (pathJoin srcRoot rel) (pathJoin dstRoot rel) st =
      some (st3, evs)) :
    copy_tree_with_policy ctx srcRoot dstRoot ((rel, false) :: rest) st =
      copy_tree_with_policy ctx srcRoot dstRoot rest st3 := by
  conv_lhs => unfold copy_tree_with_policy
  simp [h]

theorem hf_sum (ctx : Ctx) (srcP dstP : PyStr) (st st2 : St) (evs : List Ev)
    (h : handle_file ctx srcP dstP st = some (st2, evs)) :
    st2.totals.copied + st2.totals.skipped + st2.totals.overwritten =
      st.totals.copied + st.totals.skipped + st.totals.overwritten + 1 := by
  rcases handle_file_cases ctx srcP dstP st st2 evs h with
    ⟨_, rfl, _⟩ | ⟨_, _, rfl, _⟩ | ⟨_, _, rfl, _⟩ | ⟨_, _, _, rfl, _⟩ |
    ⟨rest, _, _, _, _, rfl, _⟩ | ⟨rest, _, _, _, _, rfl, _⟩ |
    ⟨rest, bp, _, _, _, _, _, rfl, _⟩ <;> simp <;> omega

theorem ct_sum (ctx : Ctx) (srcRoot dstRoot : PyStr) :
    ∀ (walk : List (PyStr × Bool)) (st st2 : St),
      copy_tree_with_policy ctx srcRoot dstRoot walk st = some st2 →
      st2.totals.copied + st2.totals.skipped + st2.totals.overwritten =
        st.totals.copied + st.totals.skipped + st.totals.overwritten +
          (walk.filter (fun e => !e.2)).length := by
  intro walk
  induction walk with
  | nil =>
    intro st st2 h
    rw [ct_nil] at h
    rw [Option.some.injEq] at h
    subst h
    simp
  | cons e rest ih =>
    intro st st2 h
    obtain ⟨rel, isDir⟩ := e
    cases isDir with
    | true =>
      rw [ct_dir] at h
      have := ih st st2 h
      simpa using this
    | false =>
      cases hf : handle_file ctx (pathJoin srcRoot rel) (pathJoin dstRoot rel) st with
      | none =>
        rw [ct_file_none ctx srcRoot dstRoot rel rest st hf] at h
        exact absurd h (by simp)
      | some r =>
        obtain ⟨st3, evs⟩ := r
        rw [ct_file_some ctx srcRoot dstRoot rel rest st st3 evs hf] at h
        have h1 := ih st3 st2 h
        have h2 := hf_sum ctx _ _ st st3 evs hf
        rw [h1, h2]
        simp
        omega

/-- Claim C10: every regular file handled moves exactly one of the three
counters up by one, and directory entries move none; hence the final
`copied + skipped + overwritten` of a synchronizer call exceeds its
initial value by exactly the number of regular source files processed. -/
theorem counters_partition :
    (∀ (ctx : Ctx) (srcP dstP : PyStr) (st st2 : St) (evs : List Ev),
      handle_file ctx srcP dstP st = some (st2, evs) →
      st2.totals.copied + st2.totals.skipped + st2.totals.overwritten =
        st.totals.copied + st.totals.skipped + st.totals.overwritten + 1) ∧
    (∀ (ctx : Ctx) (srcRoot dstRoot : PyStr) (walk : List (PyStr × Bool))
        (st st2 : St),
      copy_tree_with_policy ctx srcRoot dstRoot walk st = some st2 →
      st2.totals.copied + st2.totals.skipped + st2.totals.overwritten =
        st.totals.copied + st.totals.skipped + st.totals.overwritten +
          (walk.filter (fun e => !e.2)).length) :=
  ⟨fun ctx srcP dstP st st2 evs h => hf_sum ctx srcP dstP st st2 evs h,
   fun ctx srcRoot dstRoot walk st st2 h => ct_sum ctx srcRoot dstRoot walk st st2 h⟩

/-- Witness for claim C10: a run over two regular files (one fresh copy,
one overwrite) and one directory entry ends with the three counters
summing to exactly 2. -/
theorem counters_partition_witness :
    ∃ st2, copy_tree_with_policy
        ⟨.overwrite, .hash, false, (".bak").toList, true, 9⟩
        ("t").toList ("r").toList
        [((("a.txt").toList), false), ((("sub").toList), true),
         ((("b.txt").toList), false)]
        ⟨[((("t/a.txt").toList), ⟨("x").toList, 0⟩),
          ((("r/a.txt").toList), ⟨("y").toList, 1⟩),
          ((("t/b.txt").toList), ⟨("z").toList, 2⟩)], [], ⟨0, 0, 0⟩⟩ =
      some st2 ∧
      st2.totals.copied + st2.totals.skipped + st2.totals.overwritten = 2 := by
  have hs : (copy_tree_with_policy
      ⟨.overwrite, .hash, false, (".bak").toList, true, 9⟩
      ("t").toList ("r").toList
      [((("a.txt").toList), false), ((("sub").toList), true),
       ((("b.txt").toList), false)]
      ⟨[((("t/a.txt").toList), ⟨("x").toList, 0⟩),
        ((("r/a.txt").toList), ⟨("y").toList, 1⟩),
        ((("t/b.txt").toList), ⟨("z").toList, 2⟩)], [], ⟨0, 0, 0⟩⟩).isSome = true := rfl
  obtain ⟨st2, hrun⟩ := Option.isSome_iff_exists.mp hs
  refine ⟨st2, hrun, ?_⟩
  have h := counters_partition.2 _ _ _ _ _ _ hrun
  simpa using h

/-- Claim C8: under policy `ask` with an existing target, the comparison
event always occurs and strictly precedes any prompt event; when the
comparator reports "same" there is no prompt at all and the file is
counted as skipped. -/
theorem ask_compare_before_prompt :
    ∀ (ctx : Ctx) (srcP dstP : PyStr) (st st2 : St) (evs : List Ev),
      ctx.on_existing = .ask → fsExists st.fs dstP = true →
      handle_file ctx srcP dstP st = some (st2, evs) →
      (∃ i : Nat, evs[i]? = some (.compareEv srcP dstP) ∧
        ∀ (j : Nat) (p : PyStr), evs[j]? = some (.promptEv p) → i < j) ∧
      (conflict_differ ctx srcP dstP st.fs = false →
        (∀ p, Ev.promptEv p ∉ evs) ∧
        st2.totals.skipped = st.totals.skipped + 1) := by
  intro ctx srcP dstP st st2 evs hask hex h
  rcases handle_file_cases ctx srcP dstP st st2 evs h with
    ⟨hex0, _, _⟩ | ⟨_, ho, _, _⟩ | ⟨_, ho, _, _⟩ | ⟨_, _, hd, rfl, rfl⟩ |
    ⟨rest, _, _, hd, _, rfl, rfl⟩ | ⟨rest, _, _, hd, _, rfl, rfl⟩ |
    ⟨rest, bp, _, _, hd, _, _, rfl, rfl⟩
  · rw [hex] at hex0
    exact absurd hex0 (by simp)
  · rw [ho] at hask
    exact absurd hask (by simp)
  · rw [ho] at hask
    exact absurd hask (by simp)
  · refine ⟨⟨0, rfl, ?_⟩, ?_⟩
    · intro j p hj
      cases j with
      | zero => simp at hj
      | succ j => omega
    · intro _
      exact ⟨by intro p; simp, rfl⟩
  · refine ⟨⟨0, rfl, ?_⟩, ?_⟩
    · intro j p hj
      cases j with
      | zero => simp at hj
      | succ j => omega
    · intro hdf
      rw [hd] at hdf
      exact absurd hdf (by simp)
  · refine ⟨⟨0, rfl, ?_⟩, ?_⟩
    · intro j p hj
      cases j with
      | zero => simp at hj
      | succ j => omega
    · intro hdf
      rw [hd] at hdf
      exact absurd hdf (by simp)
  · refine ⟨⟨0, rfl, ?_⟩, ?_⟩
    · intro j p hj
      cases j with
      | zero => simp at hj
      | succ j => omega
    · intro hdf
      rw [hd] at hdf
      exact absurd hdf (by simp)

/-- Witness for claim C8: the spec scenario — identical `a.txt` on both
sides, policy `ask`, strategy `hash` — yields one compare event, no
prompt, and `skipped` going from 0 to 1. -/
theorem ask_compare_before_prompt_witness :
    (∃ i : Nat,
      ([Ev.compareEv (("t/a.txt").toList) (("r/a.txt").toList)] : List Ev)[i]? =
        some (.compareEv (("t/a.txt").toList) (("r/a.txt").toList)) ∧
      ∀ (j : Nat) (p : PyStr),
        ([Ev.compareEv (("t/a.txt").toList) (("r/a.txt").toList)] : List Ev)[j]? =
          some (.promptEv p) → i < j) ∧
    ((∀ p, Ev.promptEv p ∉
        ([Ev.compareEv (("t/a.txt").toList) (("r/a.txt").toList)] : List Ev)) ∧
      (1 : Nat) = 0 + 1) := by
  have h := ask_compare_before_prompt
    ⟨.ask, .hash, false, (".bak").toList, true, 9⟩
    (("t/a.txt").toList) (("r/a.txt").toList)
    ⟨[((("t/a.txt").toList), ⟨("hello").toList, 0⟩),
      ((("r/a.txt").toList), ⟨("hello").toList, 1⟩)], [], ⟨0, 0, 0⟩⟩
    ⟨[((("t/a.txt").toList), ⟨("hello").toList, 0⟩),
      ((("r/a.txt").toList), ⟨("hello").toList, 1⟩)], [], ⟨0, 1, 0⟩⟩
    [Ev.compareEv (("t/a.txt").toList) (("r/a.txt").toList)]
    rfl rfl rfl
  exact ⟨h.1, h.2 rfl⟩

theorem asu_no_src (ctx : Ctx) (src_self dst_self tmp_self : PyStr) (st : St)
    (hsrc : fsExists st.fs src_self = false) :
    apply_self_update_from_template ctx src_self dst_self tmp_self st =
      some (st, [], false) := by
  unfold apply_self_update_from_template
  rw [if_pos hsrc]

theorem asu_fresh (ctx : Ctx) (src_self dst_self tmp_self : PyStr) (st : St)
    (hsrc : fsExists st.fs src_self = true)
    (hdst : fsExists (fsCopy2 st.fs src_self tmp_self) dst_self = false) :
    apply_self_update_from_template ctx src_self dst_self tmp_self st =
      some ({ st with
          fs := fsCopy2 (fsCopy2 st.fs src_self tmp_self) tmp_self dst_self },
        [.copyEv src_self tmp_self, .copyEv tmp_self dst_self], true) := by
  unfold apply_self_update_from_template
  rw [if_neg (by simp [hsrc])]
  simp only [hdst]
  rfl

theorem asu_skip (ctx : Ctx) (src_self dst_self tmp_self : PyStr) (st : St)
    (hsrc : fsExists st.fs src_self = true)
    (hdst : fsExists (fsCopy2 st.fs src_self tmp_self) dst_self = true)
    (ho : ctx.on_existing = .skip) :
    apply_self_update_from_template ctx src_self dst_self tmp_self st =
      some ({ st with fs := fsCopy2 st.fs src_self tmp_self },
        [.copyEv src_self tmp_self], false) := by
  unfold apply_self_update_from_template
  rw [if_neg (by simp [hsrc])]
  simp only [hdst, ho]
  rfl

theorem asu_over (ctx : Ctx) (src_self dst_self tmp_self : PyStr) (st : St)
    (hsrc : fsExists st.fs src_self = true)
    (hdst : fsExists (fsCopy2 st.fs src_self tmp_self) dst_self = true)
    (ho : ctx.on_existing = .overwrite) :
    apply_self_update_from_template ctx src_self dst_self tmp_self st =
      some ({ st with
          fs := fsCopy2 (fsCopy2 st.fs src_self tmp_self) tmp_self dst_self },
        [.copyEv src_self tmp_self, .copyEv tmp_self dst_self], true) := by
  unfold apply_self_update_from_template
  rw [if_neg (by simp [hsrc])]
  simp only [hdst, ho]
  rfl

theorem asu_ask_same (ctx : Ctx) (src_self dst_self tmp_self : PyStr) (st : St)
    (hsrc : fsExists st.fs src_self = true)
    (hdst : fsExists (fsCopy2 st.fs src_self tmp_self) dst_self = true)
    (ho : ctx.on_existing = .ask)
    (hd : conflict_differ ctx tmp_self dst_self
      (fsCopy2 st.fs src_self tmp_self) = false) :
    apply_self_update_from_template ctx src_self dst_self tmp_self st =
      some ({ st with fs := fsCopy2 st.fs src_self tmp_self },
        [.copyEv src_self tmp_self, .compareEv tmp_self dst_self], false) := by
  unfold apply_self_update_from_template
  rw [if_neg (by simp [hsrc])]
  simp only [hdst, ho, hd]
  rfl

theorem asu_ask_skip (ctx : Ctx) (src_self dst_self tmp_self : PyStr) (st : St)
    (rest : List PyStr)
    (hsrc : fsExists st.fs src_self = true)
    (hdst : fsExists (fsCopy2 st.fs src_self tmp_self) dst_self = true)
    (ho : ctx.on_existing = .ask)
    (hd : conflict_differ ctx tmp_self dst_self
      (fsCopy2 st.fs src_self tmp_self) = true)
    (hp : prompt_existing_file_action ctx.isatty st.inputs = some (.skip, rest)) :
    apply_self_update_from_template ctx src_self dst_self tmp_self st =
      some ({ st with fs := fsCopy2 st.fs src_self tmp_self, inputs := rest },
        [.copyEv src_self tmp_self, .compareEv tmp_self dst_self,
         .promptEv dst_self], false) := by
  unfold apply_self_update_from_template
  rw [if_neg (by simp [hsrc])]
  simp only [hdst, ho, hd, hp]
  rfl

theorem asu_ask_over (ctx : Ctx) (src_self dst_self tmp_self : PyStr) (st : St)
    (rest : List PyStr)
    (hsrc : fsExists st.fs src_self = true)
    (hdst : fsExists (fsCopy2 st.fs src_self tmp_self) dst_self = true)
    (ho : ctx.on_existing = .ask)
    (hd : conflict_differ ctx tmp_self dst_self
      (fsCopy2 st.fs src_self tmp_self) = true)
    (hp : prompt_existing_file_action ctx.isatty st.inputs = some (.overwrite, rest)) :
    apply_self_update_from_template ctx src_self dst_self tmp_self st =
      some ({ st with
          fs := fsCopy2 (fsCopy2 st.fs src_self tmp_self) tmp_self dst_self,
          inputs := rest },
        [.copyEv src_self tmp_self, .compareEv tmp_self dst_self,
         .promptEv dst_self, .copyEv tmp_self dst_self], true) := by
  unfold apply_self_update_from_template
  rw [if_neg (by simp [hsrc])]
  simp only [hdst, ho, hd, hp]
  rfl

theorem asu_ask_backup (ctx : Ctx) (src_self dst_self tmp_self : PyStr) (st : St)
    (rest : List PyStr) (bp : PyStr)
    (hsrc : fsExists st.fs src_self = true)
    (hdst : fsExists (fsCopy2 st.fs src_self tmp_self) dst_self = true)
    (ho : ctx.on_existing = .ask)
    (hd : conflict_differ ctx tmp_self dst_self
      (fsCopy2 st.fs src_self tmp_self) = true)
    (hp : prompt_existing_file_action ctx.isatty st.inputs =
      some (.backup_overwrite, rest))
    (hb : next_backup_path (fsExists (fsCopy2 st.fs src_self tmp_self)) dst_self
      ctx.backup_suffix ctx.bfuel = some bp) :
    apply_self_update_from_template ctx src_self dst_self tmp_self st =
      some ({ st with
          fs := fsCopy2 (fsCopy2 (fsCopy2 st.fs src_self tmp_self) dst_self bp)
            tmp_self dst_self,
          inputs := rest },
        [.copyEv src_self tmp_self, .compareEv tmp_self dst_self,
         .promptEv dst_self, .copyEv dst_self bp, .copyEv tmp_self dst_self],
        true) := by
  unfold apply_self_update_from_template
  rw [if_neg (by simp [hsrc])]
  simp only [hdst, ho, hd, hp, hb]
  rfl

theorem asu_ask_eof (ctx : Ctx) (src_self dst_self tmp_self : PyStr) (st : St)
    (hsrc : fsExists st.fs src_self = true)
    (hdst : fsExists (fsCopy2 st.fs src_self tmp_self) dst_self = true)
    (ho : ctx.on_existing = .ask)
    (hd : conflict_differ ctx tmp_self dst_self
      (fsCopy2 st.fs src_self tmp_self) = true)
    (hp : prompt_existing_file_action ctx.isatty st.inputs = none) :
    apply_self_update_from_template ctx src_self dst_self tmp_self st = none := by
  unfold apply_self_update_from_template
  rw [if_neg (by simp [hsrc])]
  simp only [hdst, ho, hd, hp]
  rfl

theorem asu_ask_backup_exhausted (ctx : Ctx) (src_self dst_self tmp_self : PyStr)
    (st : St) (rest : List PyStr)
    (hsrc : fsExists st.fs src_self = true)
    (hdst : fsExists (fsCopy2 st.fs src_self tmp_self) dst_self = true)
    (ho : ctx.on_existing = .ask)
    (hd : conflict_differ ctx tmp_self dst_self
      (fsCopy2 st.fs src_self tmp_self) = true)
    (hp : prompt_existing_file_action ctx.isatty st.inputs =
      some (.backup_overwrite, rest))
    (hb : next_backup_path (fsExists (fsCopy2 st.fs src_self tmp_self)) dst_self
      ctx.backup_suffix ctx.bfuel = none) :
    apply_self_update_from_template ctx src_self dst_self tmp_self st = none := by
  unfold apply_self_update_from_template
  rw [if_neg (by simp [hsrc])]
  simp only [hdst, ho, hd, hp, hb]
  rfl

/-- Claim C4: a backup copy of a target file (a copy event whose source
is the target path) appears in the events of a file's handling if and
only if the resolved decision for that file is backup-then-overwrite;
and whenever it appears, it strictly precedes the overwrite copy of the
same target path.  Stated both for `handle_file` (the tree synchronizer)
and for `apply_self_update_from_template`. -/
theorem backup_iff_decision :
    (∀ (ctx : Ctx) (srcP dstP : PyStr) (st st2 : St) (evs : List Ev),
      srcP ≠ dstP →
      handle_file ctx srcP dstP st = some (st2, evs) →
      (((∃ bp, Ev.copyEv dstP bp ∈ evs) ↔
        (ctx.on_existing = .ask ∧ fsExists st.fs dstP = true ∧
         conflict_differ ctx srcP dstP st.fs = true ∧
         (prompt_existing_file_action ctx.isatty st.inputs).map Prod.fst =
           some .backup_overwrite)) ∧
       (∀ (bp : PyStr) (i j : Nat), evs[i]? = some (.copyEv dstP bp) →
         evs[j]? = some (.copyEv srcP dstP) → i < j))) ∧
    (∀ (ctx : Ctx) (src_self dst_self tmp_self : PyStr) (st st2 : St)
        (evs : List Ev) (flag : Bool),
      dst_self ≠ src_self → dst_self ≠ tmp_self →
      apply_self_update_from_template ctx src_self dst_self tmp_self st =
        some (st2, evs, flag) →
      (((∃ bp, Ev.copyEv dst_self bp ∈ evs) ↔
        (fsExists st.fs src_self = true ∧
         fsExists (fsCopy2 st.fs src_self tmp_self) dst_self = true ∧
         ctx.on_existing = .ask ∧
         conflict_differ ctx tmp_self dst_self
           (fsCopy2 st.fs src_self tmp_self) = true ∧
         (prompt_existing_file_action ctx.isatty st.inputs).map Prod.fst =
           some .backup_overwrite)) ∧
       (∀ (bp : PyStr) (i j : Nat), evs[i]? = some (.copyEv dst_self bp) →
         evs[j]? = some (.copyEv tmp_self dst_self) → i < j))) := by
  constructor
  · intro ctx srcP dstP st st2 evs hne h
    have hne2 : dstP ≠ srcP := fun he => hne he.symm
    rcases handle_file_cases ctx srcP dstP st st2 evs h with
      ⟨hex, _, rfl⟩ | ⟨hex, ho, _, rfl⟩ | ⟨hex, ho, _, rfl⟩ | ⟨hex, ho, hd, _, rfl⟩ |
      ⟨rest, hex, ho, hd, hp, _, rfl⟩ | ⟨rest, hex, ho, hd, hp, _, rfl⟩ |
      ⟨rest, bp0, hex, ho, hd, hp, hb, _, rfl⟩
    · constructor
      · constructor
        · rintro ⟨bp, hm⟩
          simp [hne2] at hm
        · rintro ⟨_, hexT, _⟩
          rw [hex] at hexT
          exact absurd hexT (by simp)
      · intro bp i j hi hj
        have hm := List.getElem?_mem hi
        simp [hne2] at hm
    · constructor
      · constructor
        · rintro ⟨bp, hm⟩
          simp at hm
        · rintro ⟨hask, _⟩
          rw [ho] at hask
          exact absurd hask (by simp)
      · intro bp i j hi hj
        have hm := List.getElem?_mem hi
        simp at hm
    · constructor
      · constructor
        · rintro ⟨bp, hm⟩
          simp [hne2] at hm
        · rintro ⟨hask, _⟩
          rw [ho] at hask
          exact absurd hask (by simp)
      · intro bp i j hi hj
        have hm := List.getElem?_mem hi
        simp [hne2] at hm
    · constructor
      · constructor
        · rintro ⟨bp, hm⟩
          simp at hm
        · rintro ⟨_, _, hdf, _⟩
          rw [hd] at hdf
          exact absurd hdf (by simp)
      · intro bp i j hi hj
        have hm := List.getElem?_mem hi
        simp at hm
    · constructor
      · constructor
        · rintro ⟨bp, hm⟩
          simp at hm
        · rintro ⟨_, _, _, hmap⟩
          rw [hp] at hmap
          exact absurd hmap (by simp)
      · intro bp i j hi hj
        have hm := List.getElem?_mem hi
        simp at hm
    · constructor
      · constructor
        · rintro ⟨bp, hm⟩
          simp [hne2] at hm
        · rintro ⟨_, _, _, hmap⟩
          rw [hp] at hmap
          exact absurd hmap (by simp)
      · intro bp i j hi hj
        have hm := List.getElem?_mem hi
        simp [hne2] at hm
    · constructor
      · constructor
        · intro _
          exact ⟨ho, hex, hd, by rw [hp]; rfl⟩
        · intro _
          exact ⟨bp0, by simp⟩
      · intro bp i j hi hj
        have hi2 : i = 2 := by
          cases i with
          | zero => simp at hi
          | succ i =>
            cases i with
            | zero => simp at hi
            | succ i =>
              cases i with
              | zero => rfl
              | succ i =>
                cases i with
                | zero =>
                  simp at hi
                  exact absurd hi.1 hne
                | succ i => simp at hi
        have hj2 : j = 3 := by
          cases j with
          | zero => simp at hj
          | succ j =>
            cases j with
            | zero => simp at hj
            | succ j =>
              cases j with
              | zero =>
                simp at hj
                exact absurd hj.1 hne2
              | succ j =>
                cases j with
                | zero => rfl
                | succ j => simp at hj
        omega
  · intro ctx src_self dst_self tmp_self st st2 evs flag hne1 hne2 h
    cases hsrc : fsExists st.fs src_self with
    | false =>
      rw [asu_no_src ctx src_self dst_self tmp_self st hsrc] at h
      rw [Option.some.injEq, Prod.mk.injEq] at h
      obtain ⟨-, h⟩ := h
      rw [Prod.mk.injEq] at h
      obtain ⟨hevs, -⟩ := h
      subst hevs
      constructor
      · constructor
        · rintro ⟨bp, hm⟩
          simp at hm
        · rintro ⟨hsrcT, _⟩
          exact absurd hsrcT (by simp)
      · intro bp i j hi hj
        have hm := List.getElem?_mem hi
        simp at hm
    | true =>
      cases hdst : fsExists (fsCopy2 st.fs src_self tmp_self) dst_self with
      | false =>
        rw [asu_fresh ctx src_self dst_self tmp_self st hsrc hdst] at h
        rw [Option.some.injEq, Prod.mk.injEq] at h
        obtain ⟨-, h⟩ := h
        rw [Prod.mk.injEq] at h
        obtain ⟨hevs, -⟩ := h
        subst hevs
        constructor
        · constructor
          · rintro ⟨bp, hm⟩
            simp [hne1, hne2] at hm
          · rintro ⟨_, hdstT, _⟩
            exact absurd hdstT (by simp)
        · intro bp i j hi hj
          have hm := List.getElem?_mem hi
          simp [hne1, hne2] at hm
      | true =>
        cases ho : ctx.on_existing with
        | skip =>
          rw [asu_skip ctx src_self dst_self tmp_self st hsrc hdst ho] at h
          rw [Option.some.injEq, Prod.mk.injEq] at h
          obtain ⟨-, h⟩ := h
          rw [Prod.mk.injEq] at h
          obtain ⟨hevs, -⟩ := h
          subst hevs
          constructor
          · constructor
            · rintro ⟨bp, hm⟩
              simp [hne1] at hm
            · rintro ⟨_, _, hask, _⟩
              exact absurd hask (by simp)
          · intro bp i j hi hj
            have hm := List.getElem?_mem hi
            simp [hne1] at hm
        | overwrite =>
          rw [asu_over ctx src_self dst_self tmp_self st hsrc hdst ho] at h
          rw [Option.some.injEq, Prod.mk.injEq] at h
          obtain ⟨-, h⟩ := h
          rw [Prod.mk.injEq] at h
          obtain ⟨hevs, -⟩ := h
          subst hevs
          constructor
          · constructor
            · rintro ⟨bp, hm⟩
              simp [hne1, hne2] at hm
            · rintro ⟨_, _, hask, _⟩
              exact absurd hask (by simp)
          · intro bp i j hi hj
            have hm := List.getElem?_mem hi
            simp [hne1, hne2] at hm
        | ask =>
          cases hd : conflict_differ ctx tmp_self dst_self
              (fsCopy2 st.fs src_self tmp_self) with
          | false =>
            rw [asu_ask_same ctx src_self dst_self tmp_self st hsrc hdst ho hd] at h
            rw [Option.some.injEq, Prod.mk.injEq] at h
            obtain ⟨-, h⟩ := h
            rw [Prod.mk.injEq] at h
            obtain ⟨hevs, -⟩ := h
            subst hevs
            constructor
            · constructor
              · rintro ⟨bp, hm⟩
                simp [hne1] at hm
              · rintro ⟨_, _, _, hdf, _⟩
                exact absurd hdf (by simp)
            · intro bp i j hi hj
              have hm := List.getElem?_mem hi
              simp [hne1] at hm
          | true =>
            cases hp : prompt_existing_file_action ctx.isatty st.inputs with
            | none =>
              rw [asu_ask_eof ctx src_self dst_self tmp_self st hsrc hdst ho hd hp]
                at h
              exact absurd h (by simp)
            | some ar =>
              obtain ⟨action, rest⟩ := ar
              cases action with
              | skip =>
                rw [asu_ask_skip ctx src_self dst_self tmp_self st rest hsrc hdst
                  ho hd hp] at h
                rw [Option.some.injEq, Prod.mk.injEq] at h
                obtain ⟨-, h⟩ := h
                rw [Prod.mk.injEq] at h
                obtain ⟨hevs, -⟩ := h
                subst hevs
                constructor
                · constructor
                  · rintro ⟨bp, hm⟩
                    simp [hne1] at hm
                  · rintro ⟨_, _, _, _, hmap⟩
                    exact absurd hmap (by simp)
                · intro bp i j hi hj
                  have hm := List.getElem?_mem hi
                  simp [hne1] at hm
              | overwrite =>
                rw [asu_ask_over ctx src_self dst_self tmp_self st rest hsrc hdst
                  ho hd hp] at h
                rw [Option.some.injEq, Prod.mk.injEq] at h
                obtain ⟨-, h⟩ := h
                rw [Prod.mk.injEq] at h
                obtain ⟨hevs, -⟩ := h
                subst hevs
                constructor
                · constructor
                  · rintro ⟨bp, hm⟩
                    simp [hne1, hne2] at hm
                  · rintro ⟨_, _, _, _, hmap⟩
                    exact absurd hmap (by simp)
                · intro bp i j hi hj
                  have hm := List.getElem?_mem hi
                  simp [hne1, hne2] at hm
              | backup_overwrite =>
                cases hb : next_backup_path
                    (fsExists (fsCopy2 st.fs src_self tmp_self)) dst_self
                    ctx.backup_suffix ctx.bfuel with
                | none =>
                  rw [asu_ask_backup_exhausted ctx src_self dst_self tmp_self st
                    rest hsrc hdst ho hd hp hb] at h
                  exact absurd h (by simp)
                | some bp0 =>
                  rw [asu_ask_backup ctx src_self dst_self tmp_self st rest bp0
                    hsrc hdst ho hd hp hb] at h
                  rw [Option.some.injEq, Prod.mk.injEq] at h
                  obtain ⟨-, h⟩ := h
                  rw [Prod.mk.injEq] at h
                  obtain ⟨hevs, -⟩ := h
                  subst hevs
                  constructor
                  · constructor
                    · intro _
                      exact ⟨rfl, rfl, rfl, rfl, rfl⟩
                    · intro _
                      exact ⟨bp0, by simp⟩
                  · intro bp i j hi hj
                    have hi2 : i = 3 := by
                      cases i with
                      | zero =>
                        simp at hi
                        exact absurd hi.1.symm hne1
                      | succ i =>
                        cases i with
                        | zero => simp at hi
                        | succ i =>
                          cases i with
                          | zero => simp at hi
                          | succ i =>
                            cases i with
                            | zero => rfl
                            | succ i =>
                              cases i with
                              | zero =>
                                simp at hi
                                exact absurd hi.1.symm hne2
                              | succ i => simp at hi
                    have hj2 : j = 4 := by
                      cases j with
                      | zero =>
                        simp only [List.getElem?_cons_zero, Option.some.injEq,
                          Ev.copyEv.injEq] at hj
                        exact absurd hj.2.symm hne2
                      | succ j =>
                        cases j with
                        | zero => simp at hj
                        | succ j =>
                          cases j with
                          | zero => simp at hj
                          | succ j =>
                            cases j with
                            | zero =>
                              simp at hj
                              exact absurd hj.1 hne2
                            | succ j =>
                              cases j with
                              | zero => rfl
                              | succ j => simp at hj
                    omega

/-- Witness for claim C4: a concrete conflicting run in which the user
answers `b`: the backup copy event is present and precedes the
overwrite, both in `handle_file` and in the self-update. -/
theorem backup_iff_decision_witness :
    (∃ bp, Ev.copyEv (("r/a.txt").toList) bp ∈
      ([.compareEv (("t/a.txt").toList) (("r/a.txt").toList),
        .promptEv (("r/a.txt").toList),
        .copyEv (("r/a.txt").toList) (("r/a.txt.bak").toList),
        .copyEv (("t/a.txt").toList) (("r/a.txt").toList)] : List Ev)) ∧
    (∀ (bp : PyStr) (i j : Nat),
      ([.compareEv (("t/a.txt").toList) (("r/a.txt").toList),
        .promptEv (("r/a.txt").toList),
        .copyEv (("r/a.txt").toList) (("r/a.txt.bak").toList),
        .copyEv (("t/a.txt").toList) (("r/a.txt").toList)] : List Ev)[i]? =
          some (.copyEv (("r/a.txt").toList) bp) →
      ([.compareEv (("t/a.txt").toList) (("r/a.txt").toList),
        .promptEv (("r/a.txt").toList),
        .copyEv (("r/a.txt").toList) (("r/a.txt.bak").toList),
        .copyEv (("t/a.txt").toList) (("r/a.txt").toList)] : List Ev)[j]? =
          some (.copyEv (("t/a.txt").toList) (("r/a.txt").toList)) → i < j) ∧
    (∃ bp, Ev.copyEv (("R/apply.py").toList) bp ∈
      ([.copyEv (("T/apply.py").toList) (("TMP/apply.py").toList),
        .compareEv (("TMP/apply.py").toList) (("R/apply.py").toList),
        .promptEv (("R/apply.py").toList),
        .copyEv (("R/apply.py").toList) (("R/apply.py.bak").toList),
        .copyEv (("TMP/apply.py").toList) (("R/apply.py").toList)] : List Ev)) := by
  have h1 := backup_iff_decision.1
    ⟨.ask, .hash, false, (".bak").toList, true, 9⟩
    (("t/a.txt").toList) (("r/a.txt").toList)
    ⟨[((("t/a.txt").toList), ⟨("x").toList, 0⟩),
      ((("r/a.txt").toList), ⟨("y").toList, 1⟩)], [("b").toList], ⟨0, 0, 0⟩⟩
    ⟨[((("r/a.txt").toList), ⟨("x").toList, 0⟩),
      ((("r/a.txt.bak").toList), ⟨("y").toList, 1⟩),
      ((("t/a.txt").toList), ⟨("x").toList, 0⟩),
      ((("r/a.txt").toList), ⟨("y").toList, 1⟩)], [], ⟨0, 0, 1⟩⟩
    [.compareEv (("t/a.txt").toList) (("r/a.txt").toList),
     .promptEv (("r/a.txt").toList),
     .copyEv (("r/a.txt").toList) (("r/a.txt.bak").toList),
     .copyEv (("t/a.txt").toList) (("r/a.txt").toList)]
    (by decide) rfl
  have h2 := backup_iff_decision.2
    ⟨.ask, .hash, false, (".bak").toList, true, 9⟩
    (("T/apply.py").toList) (("R/apply.py").toList) (("TMP/apply.py").toList)
    ⟨[((("T/apply.py").toList), ⟨("new").toList, 0⟩),
      ((("R/apply.py").toList), ⟨("old").toList, 1⟩)], [("b").toList], ⟨0, 0, 0⟩⟩
    ⟨[((("R/apply.py").toList), ⟨("new").toList, 0⟩),
      ((("R/apply.py.bak").toList), ⟨("old").toList, 1⟩),
      ((("TMP/apply.py").toList), ⟨("new").toList, 0⟩),
      ((("T/apply.py").toList), ⟨("new").toList, 0⟩),
      ((("R/apply.py").toList), ⟨("old").toList, 1⟩)], [], ⟨0, 0, 0⟩⟩
    [.copyEv (("T/apply.py").toList) (("TMP/apply.py").toList),
     .compareEv (("TMP/apply.py").toList) (("R/apply.py").toList),
     .promptEv (("R/apply.py").toList),
     .copyEv (("R/apply.py").toList) (("R/apply.py.bak").toList),
     .copyEv (("TMP/apply.py").toList) (("R/apply.py").toList)]
    true (by decide) (by decide) rfl
  exact ⟨h1.1.mpr ⟨rfl, rfl, rfl, rfl⟩, h1.2, h2.1.mpr ⟨rfl, rfl, rfl, rfl, rfl⟩⟩

end ApplyTemplate

